import Mathlib

/-!
Verification of the reliudp reliable-UDP protocol implementation.

Shallow embedding of the Rust sources under src/: the wire codec
(udp_packet.rs), ack bitmaps (ack.rs), fragmentation (fragment.rs,
fragment_generator.rs), the receiver-side fragment combiner
(fragment_combiner.rs, the iteration-counter revision present in the
snapshot), the sender-side sent-data tracker (sent_data_tracker.rs, the
time-based revision present in the snapshot) and the socket teardown
logic of rudp.rs.

Machine integers are modelled as Nat with explicit truncation where the
Rust code can overflow; Rust panics are modelled as Option.none; Instant
and Duration are modelled as Nat nanoseconds.
-/

namespace Reliudp

/-! ## Bytes and big-endian u32 (byteorder::BigEndian) -/

/-- Big-endian 4-byte encoding of a u32 value, as written by
BigEndian::write_u32. -/
def beBytesOfU32 (n : Nat) : List Nat :=
  [n / 16777216 % 256, n / 65536 % 256, n / 256 % 256, n % 256]

/-- Big-endian u32 read of the first four bytes of a buffer, as read by
BigEndian::read_u32. The under-four-bytes case never occurs behind the
length checks of the decoder. -/
def readU32BE : List Nat → Nat
  | b0 :: b1 :: b2 :: b3 :: _ => ((b0 * 256 + b1) * 256 + b2) * 256 + b3
  | _ => 0

/-! ## CRC32 (crc::crc32::checksum_ieee, reflected polynomial 0xEDB88320) -/

/-- One bit-round of the reflected IEEE CRC32. -/
def crc32Round (c : Nat) : Nat :=
  if c % 2 = 1 then (c >>> 1) ^^^ 0xEDB88320 else c >>> 1

/-- Absorb one input byte into the running CRC32 state. -/
def crc32Byte (c b : Nat) : Nat :=
  (List.range 8).foldl (fun acc _ => crc32Round acc) (c ^^^ b)

/-- CRC32 (IEEE) of a byte sequence, as computed by
crc::crc32::checksum_ieee. -/
def crc32 (bytes : List Nat) : Nat :=
  (bytes.foldl crc32Byte 0xFFFFFFFF) ^^^ 0xFFFFFFFF

/-! ## Fragments and packets (fragment.rs, udp_packet.rs) -/

/-- FragmentMeta from fragment.rs. -/
inductive FragmentMeta
  | forgettable
  | keyExpirable
  | key
  deriving DecidableEq, Repr

/-- Wire byte of a FragmentMeta (its repr(u8) discriminant). -/
def FragmentMeta.toByte : FragmentMeta → Nat
  | .forgettable => 0
  | .keyExpirable => 1
  | .key => 2

/-- Decoding of the frag_meta byte in compute_packet_meta. -/
def fragmentMetaOfByte : Nat → Option FragmentMeta
  | 0 => some .forgettable
  | 1 => some .keyExpirable
  | 2 => some .key
  | _ => none

/-- Fragment struct from fragment.rs; data is the payload byte slice. -/
structure Fragment where
  seq_id : Nat
  frag_id : Nat
  frag_total : Nat
  frag_meta : FragmentMeta
  data : List Nat
  deriving DecidableEq, Repr

/-- Packet enum from udp_packet.rs. The End variant is named endP because
end is a Lean keyword. -/
inductive Packet
  | fragment (f : Fragment)
  | ack (seq_id : Nat) (data : List Nat)
  | syn
  | synAck
  | heartbeat
  | endP (last_seq_id : Nat)
  | abort (last_seq_id : Nat)
  deriving DecidableEq, Repr

/-- Packet::header, returning (seq_id, frag_id, frag_total). -/
def Packet.header : Packet → Nat × Nat × Nat
  | .fragment f => (f.seq_id, f.frag_id, f.frag_total)
  | .ack seq_id _ => (seq_id, 255, 0)
  | .syn => (0, 255, 1)
  | .synAck => (0, 255, 2)
  | .endP last_seq_id => (last_seq_id, 255, 3)
  | .abort last_seq_id => (last_seq_id, 255, 4)
  | .heartbeat => (0, 255, 5)

/-- Packet::write_payload: the bytes written after offset 10. -/
def Packet.writePayload : Packet → List Nat
  | .fragment f => f.frag_meta.toByte :: f.data
  | .ack _ data => data
  | _ => []

/-- Encoding of a packet into a datagram, as in the
From(&Packet) for UdpPacket impl: bytes 4.. are seq_id (BE), frag_id,
frag_total and the payload; bytes 0..4 are the CRC32 of bytes 4... -/
def udpPacketOfPacket (p : Packet) : List Nat :=
  let h := p.header
  let body := beBytesOfU32 h.1 ++ [h.2.1, h.2.2] ++ p.writePayload
  beBytesOfU32 (crc32 body) ++ body

/-- UdpPacketError from udp_packet.rs. -/
inductive UdpPacketError
  | notBigEnough
  | invalidCrc
  | invalidFragLayout (frag_id frag_total : Nat)
  | invalidFragMeta
  deriving DecidableEq, Repr

/-- Decoding of a datagram: UdpPacket::compute_packet_meta followed by
PacketMeta::build_packet_with (which strips the first 10 bytes, plus one
more for the frag_meta byte of a fragment). The duplicated CRC check of
check_header_crc and compute_packet_meta collapses to one check. -/
def computePacket (buffer : List Nat) : Except UdpPacketError Packet :=
  if buffer.length < 10 then .error .notBigEnough
  else
    let message_crc32 := readU32BE buffer
    let computed_crc32 := crc32 (buffer.drop 4)
    if computed_crc32 ≠ message_crc32 then .error .invalidCrc
    else
      let seq_id := readU32BE (buffer.drop 4)
      let frag_id := buffer.getD 8 0
      let frag_total := buffer.getD 9 0
      if frag_id = 255 ∧ frag_total = 0 then .ok (.ack seq_id (buffer.drop 10))
      else if frag_id = 255 ∧ frag_total = 1 then .ok .syn
      else if frag_id = 255 ∧ frag_total = 2 then .ok .synAck
      else if frag_id = 255 ∧ frag_total = 3 then .ok (.endP seq_id)
      else if frag_id = 255 ∧ frag_total = 4 then .ok (.abort seq_id)
      else if frag_id = 255 ∧ frag_total = 5 then .ok .heartbeat
      else if frag_id ≤ frag_total then
        if buffer.length < 11 then .error .notBigEnough
        else
          match fragmentMetaOfByte (buffer.getD 10 0) with
          | none => .error .invalidFragMeta
          | some frag_meta =>
              .ok (.fragment ⟨seq_id, frag_id, frag_total, frag_meta, buffer.drop 11⟩)
      else .error (.invalidFragLayout frag_id frag_total)

/-- Well-formedness of a packet value: field values fit the Rust machine
types (u32 sequence ids, u8 fragment counters, byte payloads) and a
fragment satisfies frag_id ≤ frag_total as the sender's generator
guarantees. -/
def Packet.WF : Packet → Prop
  | .fragment f => f.seq_id < 4294967296 ∧ f.frag_id ≤ f.frag_total ∧
      f.frag_total < 256 ∧ ∀ b ∈ f.data, b < 256
  | .ack seq_id data => seq_id < 4294967296 ∧ ∀ b ∈ data, b < 256
  | .endP last_seq_id => last_seq_id < 4294967296
  | .abort last_seq_id => last_seq_id < 4294967296
  | _ => True

instance : DecidablePred Packet.WF := by
  intro p
  cases p <;> simp only [Packet.WF] <;> infer_instance

/-! ## Wire-codec round-trip (claim C2) -/

theorem two_pow_32_eq : (2 : Nat) ^ 32 = 4294967296 := by norm_num

theorem xor_lt_u32 {x y : Nat} (hx : x < 4294967296) (hy : y < 4294967296) :
    x ^^^ y < 4294967296 := by
  have h := Nat.xor_lt_two_pow (n := 32) (x := x) (y := y)
  rw [two_pow_32_eq] at h
  exact h hx hy

theorem crc32Round_lt {c : Nat} (h : c < 4294967296) : crc32Round c < 4294967296 := by
  have h1 : c >>> 1 < 4294967296 := by
    rw [Nat.shiftRight_eq_div_pow]
    omega
  unfold crc32Round
  split
  · exact xor_lt_u32 h1 (by norm_num)
  · exact h1

theorem foldl_crc32Round_lt (l : List Nat) {x : Nat} (hx : x < 4294967296) :
    l.foldl (fun acc _ => crc32Round acc) x < 4294967296 := by
  induction l generalizing x with
  | nil => exact hx
  | cons a t ih => exact ih (crc32Round_lt hx)

theorem crc32Byte_lt {c b : Nat} (hc : c < 4294967296) (hb : b < 256) :
    crc32Byte c b < 4294967296 := by
  unfold crc32Byte
  exact foldl_crc32Round_lt _ (xor_lt_u32 hc (by omega))

theorem foldl_crc32Byte_lt (bytes : List Nat) {x : Nat} (hx : x < 4294967296)
    (hb : ∀ b ∈ bytes, b < 256) :
    bytes.foldl crc32Byte x < 4294967296 := by
  induction bytes generalizing x with
  | nil => exact hx
  | cons a t ih =>
      exact ih (crc32Byte_lt hx (hb a (List.mem_cons_self a t)))
        (fun b h => hb b (List.mem_cons_of_mem a h))

/-- The CRC32 of a byte sequence fits in a u32. -/
theorem crc32_lt (bytes : List Nat) (h : ∀ b ∈ bytes, b < 256) :
    crc32 bytes < 4294967296 := by
  unfold crc32
  exact xor_lt_u32 (foldl_crc32Byte_lt bytes (by norm_num) h) (by norm_num)

theorem readU32BE_beBytes (n : Nat) (rest : List Nat) :
    readU32BE (beBytesOfU32 n ++ rest) = n % 4294967296 := by
  show ((n / 16777216 % 256 * 256 + n / 65536 % 256) * 256 + n / 256 % 256) * 256 + n % 256
      = n % 4294967296
  omega

theorem beBytes_all_lt (n : Nat) : ∀ b ∈ beBytesOfU32 n, b < 256 := by
  intro b hb
  simp only [beBytesOfU32, List.mem_cons, List.not_mem_nil, or_false] at hb
  rcases hb with h | h | h | h <;> subst h <;> omega

/-- Decoding an encoded buffer reduces to the type-discrimination table on
(frag_id, frag_total), with the sequence id and the payload read back
unchanged. -/
theorem computePacket_encoded (seq fid ft : Nat) (payload : List Nat)
    (hseq : seq < 4294967296) (hfid : fid < 256) (hft : ft < 256)
    (hpay : ∀ b ∈ payload, b < 256) :
    computePacket (beBytesOfU32 (crc32 (beBytesOfU32 seq ++ [fid, ft] ++ payload))
        ++ (beBytesOfU32 seq ++ [fid, ft] ++ payload)) =
      (if fid = 255 ∧ ft = 0 then .ok (.ack seq payload)
       else if fid = 255 ∧ ft = 1 then .ok .syn
       else if fid = 255 ∧ ft = 2 then .ok .synAck
       else if fid = 255 ∧ ft = 3 then .ok (.endP seq)
       else if fid = 255 ∧ ft = 4 then .ok (.abort seq)
       else if fid = 255 ∧ ft = 5 then .ok .heartbeat
       else if fid ≤ ft then
         match payload with
         | [] => Except.error .notBigEnough
         | m :: rest =>
           match fragmentMetaOfByte m with
           | none => Except.error .invalidFragMeta
           | some fm => Except.ok (.fragment ⟨seq, fid, ft, fm, rest⟩)
       else .error (.invalidFragLayout fid ft)) := by
  have hbody : ∀ b ∈ beBytesOfU32 seq ++ [fid, ft] ++ payload, b < 256 := by
    intro b hb
    simp only [List.mem_append, List.mem_cons, List.not_mem_nil, or_false] at hb
    rcases hb with (h | h | h) | h
    · exact beBytes_all_lt seq b h
    · omega
    · omega
    · exact hpay b h
  have hcrc : crc32 (beBytesOfU32 seq ++ [fid, ft] ++ payload) < 4294967296 :=
    crc32_lt _ hbody
  have hlen : (beBytesOfU32 (crc32 (beBytesOfU32 seq ++ [fid, ft] ++ payload))
      ++ (beBytesOfU32 seq ++ [fid, ft] ++ payload)).length = 10 + payload.length := by
    simp [beBytesOfU32]
    omega
  rw [computePacket]
  rw [if_neg (by omega)]
  have hread : readU32BE (beBytesOfU32 (crc32 (beBytesOfU32 seq ++ [fid, ft] ++ payload))
      ++ (beBytesOfU32 seq ++ [fid, ft] ++ payload))
      = crc32 (beBytesOfU32 seq ++ [fid, ft] ++ payload) := by
    rw [readU32BE_beBytes]
    omega
  have hdrop4 : (beBytesOfU32 (crc32 (beBytesOfU32 seq ++ [fid, ft] ++ payload))
      ++ (beBytesOfU32 seq ++ [fid, ft] ++ payload)).drop 4
      = beBytesOfU32 seq ++ [fid, ft] ++ payload := rfl
  rw [hdrop4, hread, if_neg (by simp)]
  have hseqread : readU32BE (beBytesOfU32 seq ++ [fid, ft] ++ payload) = seq := by
    rw [List.append_assoc, readU32BE_beBytes]
    omega
  rw [hseqread]
  have hGet8 : (beBytesOfU32 (crc32 (beBytesOfU32 seq ++ [fid, ft] ++ payload))
      ++ (beBytesOfU32 seq ++ [fid, ft] ++ payload)).getD 8 0 = fid := rfl
  have hGet9 : (beBytesOfU32 (crc32 (beBytesOfU32 seq ++ [fid, ft] ++ payload))
      ++ (beBytesOfU32 seq ++ [fid, ft] ++ payload)).getD 9 0 = ft := rfl
  rw [hGet8, hGet9]
  by_cases h0 : fid = 255 ∧ ft = 0
  · rw [if_pos h0, if_pos h0]
    rfl
  rw [if_neg h0, if_neg h0]
  by_cases h1 : fid = 255 ∧ ft = 1
  · rw [if_pos h1, if_pos h1]
  rw [if_neg h1, if_neg h1]
  by_cases h2 : fid = 255 ∧ ft = 2
  · rw [if_pos h2, if_pos h2]
  rw [if_neg h2, if_neg h2]
  by_cases h3 : fid = 255 ∧ ft = 3
  · rw [if_pos h3, if_pos h3]
  rw [if_neg h3, if_neg h3]
  by_cases h4 : fid = 255 ∧ ft = 4
  · rw [if_pos h4, if_pos h4]
  rw [if_neg h4, if_neg h4]
  by_cases h5 : fid = 255 ∧ ft = 5
  · rw [if_pos h5, if_pos h5]
  rw [if_neg h5, if_neg h5]
  by_cases hle : fid ≤ ft
  · rw [if_pos hle, if_pos hle]
    cases payload with
    | nil =>
        rw [if_pos (by rw [hlen]; simp)]
    | cons m rest =>
        rw [if_neg (by rw [hlen]; simp only [List.length_cons]; omega)]
        rfl
  · rw [if_neg hle, if_neg hle]

/-- C2: for every well-formed packet value of every kind (Fragment with
frag_id at most frag_total and a valid frag_meta, Ack, Syn, SynAck,
Heartbeat, End, Abort), encoding into a datagram and decoding that
datagram yields the packet again. -/
theorem decode_encode_roundtrip (p : Packet) (hWF : p.WF) :
    computePacket (udpPacketOfPacket p) = .ok p := by
  cases p with
  | fragment f =>
      obtain ⟨seq, fid, ft, fm, data⟩ := f
      obtain ⟨ha, hb, hc, hd⟩ := hWF
      have h1 : seq < 4294967296 := ha
      have h2 : fid ≤ ft := hb
      have h3 : ft < 256 := hc
      have h4 : ∀ b ∈ data, b < 256 := hd
      have hpay : ∀ b ∈ fm.toByte :: data, b < 256 := by
        intro b hb
        rcases List.mem_cons.mp hb with h | h
        · subst h; cases fm <;> simp [FragmentMeta.toByte]
        · exact h4 b h
      have h := computePacket_encoded seq fid ft (fm.toByte :: data) h1 (by omega) h3 hpay
      simp only [udpPacketOfPacket, Packet.header, Packet.writePayload]
      rw [h]
      rw [if_neg (by omega), if_neg (by omega), if_neg (by omega), if_neg (by omega),
        if_neg (by omega), if_neg (by omega), if_pos h2]
      cases fm <;> rfl
  | ack seq data =>
      obtain ⟨h1, h2⟩ := hWF
      have h := computePacket_encoded seq 255 0 data h1 (by omega) (by omega) h2
      simp only [udpPacketOfPacket, Packet.header, Packet.writePayload]
      rw [h]
      rw [if_pos ⟨rfl, rfl⟩]
  | syn =>
      have h := computePacket_encoded 0 255 1 [] (by omega) (by omega) (by omega)
        (by intro b hb; cases hb)
      simp only [udpPacketOfPacket, Packet.header, Packet.writePayload]
      rw [h]
      rw [if_neg (by omega), if_pos ⟨rfl, rfl⟩]
  | synAck =>
      have h := computePacket_encoded 0 255 2 [] (by omega) (by omega) (by omega)
        (by intro b hb; cases hb)
      simp only [udpPacketOfPacket, Packet.header, Packet.writePayload]
      rw [h]
      rw [if_neg (by omega), if_neg (by omega), if_pos ⟨rfl, rfl⟩]
  | heartbeat =>
      have h := computePacket_encoded 0 255 5 [] (by omega) (by omega) (by omega)
        (by intro b hb; cases hb)
      simp only [udpPacketOfPacket, Packet.header, Packet.writePayload]
      rw [h]
      rw [if_neg (by omega), if_neg (by omega), if_neg (by omega), if_neg (by omega),
        if_neg (by omega), if_pos ⟨rfl, rfl⟩]
  | endP last =>
      have h := computePacket_encoded last 255 3 [] hWF (by omega) (by omega)
        (by intro b hb; cases hb)
      simp only [udpPacketOfPacket, Packet.header, Packet.writePayload]
      rw [h]
      rw [if_neg (by omega), if_neg (by omega), if_neg (by omega), if_pos ⟨rfl, rfl⟩]
  | abort last =>
      have h := computePacket_encoded last 255 4 [] hWF (by omega) (by omega)
        (by intro b hb; cases hb)
      simp only [udpPacketOfPacket, Packet.header, Packet.writePayload]
      rw [h]
      rw [if_neg (by omega), if_neg (by omega), if_neg (by omega), if_neg (by omega),
        if_pos ⟨rfl, rfl⟩]

/-- Witness for the C2 round-trip theorem at a concrete fragment packet. -/
theorem decode_encode_roundtrip_witness :
    (Packet.fragment ⟨7, 1, 2, .key, [170, 3]⟩).WF ∧
      computePacket (udpPacketOfPacket (.fragment ⟨7, 1, 2, .key, [170, 3]⟩)) =
        .ok (.fragment ⟨7, 1, 2, .key, [170, 3]⟩) :=
  ⟨by decide, decode_encode_roundtrip (.fragment ⟨7, 1, 2, .key, [170, 3]⟩) (by decide)⟩

/-! ## Ack bitmaps (ack.rs) -/

/-- ack_size_from_frag_total from ack.rs: frag_total / 8 rounded up, which
is the ceiling of frag_total / 8 and NOT the ceiling of (frag_total+1) / 8. -/
def ack_size_from_frag_total (frag_total : Nat) : Nat :=
  if frag_total % 8 = 0 then frag_total / 8 else frag_total / 8 + 1

/-- Ack::create_complete: ack_size_from_frag_total bytes, all 0xFF. -/
def create_complete (frag_total : Nat) : List Nat :=
  List.replicate (ack_size_from_frag_total frag_total) 0xFF

/-- One iteration of the loop body of Ack::create_from_frag_ids:
ack[frag_id / 8] |= 1 << (frag_id % 8). Returns none when the byte index
is out of bounds, where the Rust indexing panics. -/
def ackSetBit (ack : List Nat) (frag_id : Nat) : Option (List Nat) :=
  if frag_id / 8 < ack.length then
    some (ack.set (frag_id / 8) (ack.getD (frag_id / 8) 0 ||| (1 <<< (frag_id % 8))))
  else none

/-- Ack::create_from_frag_ids: start from an all-zero bitmap of
ack_size_from_frag_total bytes and set one bit per frag id. -/
def create_from_frag_ids (iter : List Nat) (frag_total : Nat) : Option (List Nat) :=
  iter.foldlM ackSetBit (List.replicate (ack_size_from_frag_total frag_total) 0)

/-- The per-byte body shared by frag_ids_received_from_ack and
frag_ids_missing_from_ack: enumerate the 8 bit positions of one byte,
keep position bit_index when the bit's set-ness matches want_set and
index*8+bit_index is at most frag_total. -/
def ackIdsFromByte (want_set : Bool) (index bits frag_total : Nat) : List Nat :=
  (List.range 8).filterMap (fun bit_index =>
    if decide (bits &&& (1 <<< bit_index) > 0) = want_set then
      if index * 8 + bit_index ≤ frag_total then some (index * 8 + bit_index) else none
    else none)

/-- The enumerate-and-flat-map loop shared by the two bitmap readers,
written as an indexed recursion. -/
def ackIdsAux (want_set : Bool) (frag_total : Nat) : Nat → List Nat → List Nat
  | _, [] => []
  | index, bits :: rest =>
      ackIdsFromByte want_set index bits frag_total ++
        ackIdsAux want_set frag_total (index + 1) rest

/-- frag_ids_received_from_ack from ack.rs: ids whose bit is set. -/
def frag_ids_received_from_ack (ack_bytes : List Nat) (frag_total : Nat) : List Nat :=
  ackIdsAux true frag_total 0 ack_bytes

/-- frag_ids_missing_from_ack from ack.rs: ids whose bit is clear. -/
def frag_ids_missing_from_ack (ack_bytes : List Nat) (frag_total : Nat) : List Nat :=
  ackIdsAux false frag_total 0 ack_bytes

/-! ### Bit lemmas for the ack bitmap -/

theorem and_shift_ne_zero (x b : Nat) : x &&& (1 <<< b) ≠ 0 ↔ x.testBit b := by
  have h1 : (1 : Nat) <<< b = 2 ^ b := by rw [Nat.shiftLeft_eq, one_mul]
  rw [h1]
  constructor
  · intro h
    by_contra htb
    apply h
    apply Nat.eq_of_testBit_eq
    intro j
    by_cases hj : j = b
    · subst hj
      simp [Nat.testBit_and, htb]
    · simp [Nat.testBit_and, Nat.testBit_two_pow, Ne.symm hj]
  · intro h h0
    have h2 := congrArg (fun y => y.testBit b) h0
    simp [Nat.testBit_and, Nat.testBit_two_pow, h] at h2

theorem and_shift_pos (x b : Nat) : x &&& (1 <<< b) > 0 ↔ x.testBit b := by
  have h : x &&& (1 <<< b) > 0 ↔ x &&& (1 <<< b) ≠ 0 := Nat.pos_iff_ne_zero
  exact h.trans (and_shift_ne_zero x b)

theorem decide_and_shift (x b : Nat) : decide (x &&& (1 <<< b) > 0) = x.testBit b := by
  cases hx : x.testBit b
  · simp only [decide_eq_false_iff_not]
    rw [and_shift_pos, hx]
    simp
  · simp only [decide_eq_true_eq]
    rw [and_shift_pos]
    exact hx

theorem getD_set_self (l : List Nat) (i : Nat) (a : Nat) (h : i < l.length) :
    (l.set i a).getD i 0 = a := by
  simp [List.getD_eq_getElem?_getD, List.getElem?_set_self h]

theorem getD_set_ne (l : List Nat) (i j a : Nat) (h : i ≠ j) :
    (l.set i a).getD j 0 = l.getD j 0 := by
  simp [List.getD_eq_getElem?_getD, List.getElem?_set_ne h]

theorem getD_replicate_zero (n j : Nat) : (List.replicate n (0 : Nat)).getD j 0 = 0 := by
  rw [List.getD_eq_getElem?_getD, List.getElem?_replicate]
  split <;> rfl

/-- Setting the bits of a frag-id list over any accumulator: the fold
succeeds when every byte index is in range, preserves the length, and the
final bit at position i is set iff it was set before or i is in the list. -/
theorem foldlM_ackSetBit_spec (S : List Nat) :
    ∀ acc : List Nat, (∀ s ∈ S, s / 8 < acc.length) →
    ∃ r, List.foldlM ackSetBit acc S = some r ∧ r.length = acc.length ∧
      (∀ i : Nat, (r.getD (i / 8) 0).testBit (i % 8) ↔
        ((acc.getD (i / 8) 0).testBit (i % 8) ∨ i ∈ S)) := by
  induction S with
  | nil =>
      intro acc h
      exact ⟨acc, rfl, rfl, by simp⟩
  | cons s S ih =>
      intro acc h
      have hs : s / 8 < acc.length := h s (List.mem_cons_self s S)
      have hstep : ackSetBit acc s =
          some (acc.set (s / 8) (acc.getD (s / 8) 0 ||| (1 <<< (s % 8)))) := by
        rw [ackSetBit, if_pos hs]
      have hlen1 : (acc.set (s / 8) (acc.getD (s / 8) 0 ||| (1 <<< (s % 8)))).length
          = acc.length := List.length_set acc _ _
      obtain ⟨r, hr, hrlen, hrbits⟩ :=
        ih (acc.set (s / 8) (acc.getD (s / 8) 0 ||| (1 <<< (s % 8))))
          (by intro t ht; rw [hlen1]; exact h t (List.mem_cons_of_mem s ht))
      refine ⟨r, ?_, by rw [hrlen, hlen1], ?_⟩
      · show Option.bind (ackSetBit acc s)
          (fun acc2 => List.foldlM ackSetBit acc2 S) = some r
        rw [hstep]
        exact hr
      · intro i
        rw [hrbits i]
        by_cases hdiv : i / 8 = s / 8
        · rw [hdiv, getD_set_self _ _ _ hs, Nat.testBit_or]
          have hsh : (1 <<< (s % 8) : Nat) = 2 ^ (s % 8) := by
            rw [Nat.shiftLeft_eq, one_mul]
          rw [hsh, Nat.testBit_two_pow]
          simp only [Bool.or_eq_true, decide_eq_true_eq, List.mem_cons]
          constructor
          · rintro ((hb | hb) | hb)
            · exact Or.inl hb
            · exact Or.inr (Or.inl (by omega))
            · exact Or.inr (Or.inr hb)
          · rintro (hb | hb | hb)
            · exact Or.inl (Or.inl hb)
            · exact Or.inl (Or.inr (by omega))
            · exact Or.inr hb
        · rw [getD_set_ne _ _ _ _ (fun hEq => hdiv hEq.symm)]
          simp only [List.mem_cons]
          constructor
          · rintro (hb | hb)
            · exact Or.inl hb
            · exact Or.inr (Or.inr hb)
          · rintro (hb | hb | hb)
            · exact Or.inl hb
            · subst hb
              exact absurd rfl hdiv
            · exact Or.inr hb

/-- Ack::create_from_frag_ids succeeds when every frag id fits the bitmap,
and the resulting bitmap has exactly the bits of the input list set. -/
theorem create_from_frag_ids_spec (S : List Nat) (ft : Nat)
    (hS : ∀ s ∈ S, s / 8 < ack_size_from_frag_total ft) :
    ∃ r, create_from_frag_ids S ft = some r ∧
      r.length = ack_size_from_frag_total ft ∧
      (∀ i : Nat, (r.getD (i / 8) 0).testBit (i % 8) ↔ i ∈ S) := by
  obtain ⟨r, hr, hrlen, hrbits⟩ :=
    foldlM_ackSetBit_spec S (List.replicate (ack_size_from_frag_total ft) 0)
      (by intro s hs; rw [List.length_replicate]; exact hS s hs)
  refine ⟨r, hr, by rw [hrlen, List.length_replicate], ?_⟩
  intro i
  rw [hrbits i, getD_replicate_zero]
  simp [Nat.zero_testBit]

theorem mem_ackIdsFromByte (want_set : Bool) (index bits ft i : Nat) :
    i ∈ ackIdsFromByte want_set index bits ft ↔
      (i / 8 = index ∧ bits.testBit (i % 8) = want_set ∧ i ≤ ft) := by
  rw [ackIdsFromByte, List.mem_filterMap]
  constructor
  · rintro ⟨b, hb, hcond⟩
    rw [List.mem_range] at hb
    rw [decide_and_shift] at hcond
    by_cases h1 : bits.testBit b = want_set
    · rw [if_pos h1] at hcond
      by_cases h2 : index * 8 + b ≤ ft
      · rw [if_pos h2] at hcond
        have hi : index * 8 + b = i := Option.some.inj hcond
        refine ⟨by omega, ?_, by omega⟩
        rw [show i % 8 = b by omega]
        exact h1
      · rw [if_neg h2] at hcond
        simp at hcond
    · rw [if_neg h1] at hcond
      simp at hcond
  · rintro ⟨hdiv, hbit, hle⟩
    refine ⟨i % 8, List.mem_range.mpr (Nat.mod_lt i (by omega)), ?_⟩
    rw [decide_and_shift, if_pos hbit, if_pos (by omega : index * 8 + i % 8 ≤ ft)]
    congr 1
    omega

theorem mem_ackIdsAux (want_set : Bool) (ft : Nat) (l : List Nat) :
    ∀ (index i : Nat),
      i ∈ ackIdsAux want_set ft index l ↔
        (index ≤ i / 8 ∧ i / 8 - index < l.length ∧
          (l.getD (i / 8 - index) 0).testBit (i % 8) = want_set ∧ i ≤ ft) := by
  induction l with
  | nil =>
      intro index i
      simp [ackIdsAux]
  | cons bits rest ih =>
      intro index i
      rw [ackIdsAux, List.mem_append, mem_ackIdsFromByte, ih (index + 1) i]
      constructor
      · rintro (⟨hdiv, hbit, hle⟩ | ⟨hge, hlt, hbit, hle⟩)
        · refine ⟨by omega, by simp; omega, ?_, hle⟩
          rw [show i / 8 - index = 0 by omega]
          exact hbit
        · refine ⟨by omega, by simp; omega, ?_, hle⟩
          rw [show i / 8 - index = (i / 8 - (index + 1)) + 1 by omega]
          exact hbit
      · rintro ⟨hge, hlt, hbit, hle⟩
        by_cases hdiv : i / 8 = index
        · left
          refine ⟨hdiv, ?_, hle⟩
          rw [show i / 8 - index = 0 by omega] at hbit
          exact hbit
        · right
          refine ⟨by omega, by simp at hlt; omega, ?_, hle⟩
          rw [show i / 8 - (index + 1) = (i / 8 - index) - 1 by omega]
          rw [show i / 8 - index = (i / 8 - index - 1) + 1 by omega] at hbit
          exact hbit

/-- Membership in the received reader. -/
theorem mem_received_iff (bytes : List Nat) (ft i : Nat) :
    i ∈ frag_ids_received_from_ack bytes ft ↔
      (i / 8 < bytes.length ∧ (bytes.getD (i / 8) 0).testBit (i % 8) ∧ i ≤ ft) := by
  rw [frag_ids_received_from_ack, mem_ackIdsAux]
  simp

/-- Membership in the missing reader. -/
theorem mem_missing_iff (bytes : List Nat) (ft i : Nat) :
    i ∈ frag_ids_missing_from_ack bytes ft ↔
      (i / 8 < bytes.length ∧ ¬ (bytes.getD (i / 8) 0).testBit (i % 8) ∧ i ≤ ft) := by
  rw [frag_ids_missing_from_ack, mem_ackIdsAux]
  simp

/-! ## Fragmentation (consts.rs, fragment.rs, fragment_generator.rs) -/

/-- Modelled from the spec: MAX_UDP_MESSAGE_SIZE is referenced by
fragment.rs but missing from the consts.rs revision in the snapshot; the
spec fixes the maximum datagram at 1152 + 11 = 1163 bytes. -/
def MAX_UDP_MESSAGE_SIZE : Nat := 1163

/-- FRAG_DATA_START_BYTE from consts.rs: 4 (crc) + 6 (header) + 1 (meta). -/
def FRAG_DATA_START_BYTE : Nat := 11

/-- MAX_FRAGMENT_MESSAGE_SIZE from fragment.rs: payload bytes per fragment. -/
def MAX_FRAGMENT_MESSAGE_SIZE : Nat := MAX_UDP_MESSAGE_SIZE - FRAG_DATA_START_BYTE

/-- MAX_FRAGMENTS_IN_MESSAGE from consts.rs. -/
def MAX_FRAGMENTS_IN_MESSAGE : Nat := 256

/-- slice::chunks with an explicit fuel (the list length at the call site):
consecutive chunks of the given size, the last possibly shorter. -/
def chunksAux (size : Nat) : Nat → List Nat → List (List Nat)
  | 0, _ => []
  | _, [] => []
  | fuel + 1, l => l.take size :: chunksAux size fuel (l.drop size)

/-- data.chunks(size) from Rust fragment.rs. -/
def chunks (size : Nat) (l : List Nat) : List (List Nat) :=
  chunksAux size l.length l

/-- FragmentGenerator from fragment_generator.rs: one fragment per chunk,
frag ids assigned from the running next_frag counter. -/
def fragmentGenAux (seq_id frag_total : Nat) (fm : FragmentMeta) :
    Nat → List (List Nat) → List Fragment
  | _, [] => []
  | next_frag, c :: rest =>
      ⟨seq_id, next_frag, frag_total, fm, c⟩ ::
        fragmentGenAux seq_id frag_total fm (next_frag + 1) rest

/-- build_fragments_from_bytes from fragment.rs. Returns none both for the
Err(()) on more than 256 fragments and for the panic on empty input. -/
def build_fragments_from_bytes (data : List Nat) (seq_id : Nat)
    (frag_meta : FragmentMeta) : Option (List Fragment × Nat) :=
  if data = [] then none
  else
    let fragments_count := data.length / MAX_FRAGMENT_MESSAGE_SIZE +
      (if data.length % MAX_FRAGMENT_MESSAGE_SIZE ≠ 0 then 1 else 0)
    if fragments_count > MAX_FRAGMENTS_IN_MESSAGE then none
    else
      some (fragmentGenAux seq_id (fragments_count - 1) frag_meta 0
          (chunks MAX_FRAGMENT_MESSAGE_SIZE data),
        fragments_count - 1)

/-- Loop body of build_data_from_fragments: place one fragment in the slot
of its frag id, failing on an out-of-range or duplicate id. -/
def placeFragment (slots : List (Option Fragment)) (f : Fragment) :
    Option (List (Option Fragment)) :=
  if f.frag_id < slots.length then
    match slots.getD f.frag_id none with
    | some _ => none
    | none => some (slots.set f.frag_id (some f))
  else none

/-- build_data_from_fragments from fragment.rs. The two asserts (all slots
filled; frag_total of slot zero plus one equals the count) and the
slot-zero indexing of an empty vector are panics, modelled as none. -/
def build_data_from_fragments (fragments : List Fragment) : Option (List Nat) :=
  match fragments.foldlM placeFragment (List.replicate fragments.length none) with
  | none => none
  | some slots =>
      if slots.all Option.isSome then
        match slots with
        | [] => none
        | none :: _ => none
        | some f0 :: _ =>
            if f0.frag_total + 1 = slots.length then
              some ((slots.map (fun o => (o.map Fragment.data).getD [])).flatten)
            else none
      else none

/-! ### Fragment round-trip lemmas -/

theorem chunksAux_join (size : Nat) (hsize : 0 < size) :
    ∀ (fuel : Nat) (l : List Nat), l.length ≤ fuel → (chunksAux size fuel l).flatten = l := by
  intro fuel
  induction fuel with
  | zero =>
      intro l hl
      rw [List.length_eq_zero.mp (Nat.le_zero.mp hl)]
      rfl
  | succ fuel ih =>
      intro l hl
      cases l with
      | nil => rfl
      | cons a t =>
          show (List.take size (a :: t) :: chunksAux size fuel (List.drop size (a :: t))).flatten
              = a :: t
          rw [List.flatten_cons,
            ih (List.drop size (a :: t)) (by simp only [List.length_drop, List.length_cons] at hl ⊢; omega)]
          exact List.take_append_drop size (a :: t)

theorem chunks_join (size : Nat) (hsize : 0 < size) (l : List Nat) :
    (chunks size l).flatten = l :=
  chunksAux_join size hsize l.length l (Nat.le_refl _)

theorem chunksAux_length_1152 :
    ∀ (fuel : Nat) (l : List Nat), l.length ≤ fuel →
      (chunksAux 1152 fuel l).length =
        l.length / 1152 + (if l.length % 1152 ≠ 0 then 1 else 0) := by
  intro fuel
  induction fuel with
  | zero =>
      intro l hl
      rw [List.length_eq_zero.mp (Nat.le_zero.mp hl)]
      rfl
  | succ fuel ih =>
      intro l hl
      cases l with
      | nil => rfl
      | cons a t =>
          show (List.take 1152 (a :: t) :: chunksAux 1152 fuel (List.drop 1152 (a :: t))).length
              = (a :: t).length / 1152 + (if (a :: t).length % 1152 ≠ 0 then 1 else 0)
          rw [List.length_cons,
            ih (List.drop 1152 (a :: t)) (by simp only [List.length_drop, List.length_cons] at hl ⊢; omega)]
          simp only [List.length_drop, List.length_cons]
          split_ifs <;> omega

theorem fragmentGenAux_length (seq ft : Nat) (fm : FragmentMeta) :
    ∀ (k : Nat) (cs : List (List Nat)), (fragmentGenAux seq ft fm k cs).length = cs.length := by
  intro k cs
  induction cs generalizing k with
  | nil => rfl
  | cons c rest ih =>
      show (fragmentGenAux seq ft fm (k + 1) rest).length + 1 = rest.length + 1
      rw [ih (k + 1)]

theorem fragmentGenAux_data (seq ft : Nat) (fm : FragmentMeta) :
    ∀ (k : Nat) (cs : List (List Nat)),
      (fragmentGenAux seq ft fm k cs).map Fragment.data = cs := by
  intro k cs
  induction cs generalizing k with
  | nil => rfl
  | cons c rest ih =>
      show c :: (fragmentGenAux seq ft fm (k + 1) rest).map Fragment.data = c :: rest
      rw [ih (k + 1)]

theorem fragmentGenAux_fields (seq ft : Nat) (fm : FragmentMeta) :
    ∀ (k : Nat) (cs : List (List Nat)) (f : Fragment), f ∈ fragmentGenAux seq ft fm k cs →
      f.seq_id = seq ∧ f.frag_total = ft ∧ f.frag_meta = fm ∧
        k ≤ f.frag_id ∧ f.frag_id < k + cs.length := by
  intro k cs
  induction cs generalizing k with
  | nil => intro f hf; cases hf
  | cons c rest ih =>
      intro f hf
      rcases List.mem_cons.mp hf with hf | hf
      · subst hf
        exact ⟨rfl, rfl, rfl, Nat.le_refl _, by simp⟩
      · obtain ⟨h1, h2, h3, h4, h5⟩ := ih (k + 1) f hf
        exact ⟨h1, h2, h3, by omega, by simp; omega⟩

theorem fragmentGenAux_frag_ids (seq ft : Nat) (fm : FragmentMeta) :
    ∀ (k : Nat) (cs : List (List Nat)),
      (fragmentGenAux seq ft fm k cs).map Fragment.frag_id = List.range' k cs.length := by
  intro k cs
  induction cs generalizing k with
  | nil => rfl
  | cons c rest ih =>
      show k :: (fragmentGenAux seq ft fm (k + 1) rest).map Fragment.frag_id
          = List.range' k (rest.length + 1)
      rw [ih (k + 1), List.range'_succ]

/-- Placing the generated fragments fills the free suffix of the slot
vector in order. -/
theorem foldlM_placeFragment (seq ft : Nat) (fm : FragmentMeta) :
    ∀ (cs : List (List Nat)) (pre : List (Option Fragment)),
      List.foldlM placeFragment (pre ++ List.replicate cs.length none)
          (fragmentGenAux seq ft fm pre.length cs)
        = some (pre ++ (fragmentGenAux seq ft fm pre.length cs).map some) := by
  intro cs
  induction cs with
  | nil =>
      intro pre
      simp [fragmentGenAux]
  | cons c rest ih =>
      intro pre
      have hrep : List.replicate (c :: rest).length (none : Option Fragment)
          = none :: List.replicate rest.length none := by
        rw [List.length_cons, List.replicate_succ]
      have hget : (pre ++ List.replicate (c :: rest).length none).getD pre.length none
          = none := by
        rw [hrep, List.getD_eq_getElem?_getD, List.getElem?_append_right (Nat.le_refl _)]
        simp
      have hset : (pre ++ List.replicate (c :: rest).length none).set pre.length
            (some ⟨seq, pre.length, ft, fm, c⟩)
          = (pre ++ [some ⟨seq, pre.length, ft, fm, c⟩]) ++ List.replicate rest.length none := by
        rw [hrep, List.set_append_right _ _ (Nat.le_refl _), Nat.sub_self, List.set_cons_zero,
          List.append_assoc]
        rfl
      have hplace : placeFragment (pre ++ List.replicate (c :: rest).length none)
            ⟨seq, pre.length, ft, fm, c⟩
          = some ((pre ++ [some ⟨seq, pre.length, ft, fm, c⟩])
              ++ List.replicate rest.length none) := by
        dsimp only [placeFragment]
        rw [if_pos (by simp)]
        rw [hget, hset]
      have ihp := ih (pre ++ [some ⟨seq, pre.length, ft, fm, c⟩])
      have hplen : (pre ++ [some (⟨seq, pre.length, ft, fm, c⟩ : Fragment)]).length
          = pre.length + 1 := by simp
      rw [hplen] at ihp
      show List.foldlM placeFragment (pre ++ List.replicate (c :: rest).length none)
          (⟨seq, pre.length, ft, fm, c⟩ :: fragmentGenAux seq ft fm (pre.length + 1) rest)
        = some (pre ++ (some ⟨seq, pre.length, ft, fm, c⟩ ::
            (fragmentGenAux seq ft fm (pre.length + 1) rest).map some))
      rw [List.foldlM_cons, hplace]
      show List.foldlM placeFragment
          ((pre ++ [some ⟨seq, pre.length, ft, fm, c⟩]) ++ List.replicate rest.length none)
          (fragmentGenAux seq ft fm (pre.length + 1) rest)
        = some (pre ++ (some ⟨seq, pre.length, ft, fm, c⟩ ::
            (fragmentGenAux seq ft fm (pre.length + 1) rest).map some))
      rw [ihp]
      simp

theorem map_unwrap_map_some (l : List Fragment) :
    (l.map some).map (fun o => (Option.map Fragment.data o).getD []) = l.map Fragment.data := by
  induction l with
  | nil => rfl
  | cons f t ih =>
      show f.data :: (t.map some).map (fun o => (Option.map Fragment.data o).getD [])
          = f.data :: t.map Fragment.data
      rw [ih]

/-- Reassembling the fragments generated from a chunk list restores the
concatenation of the chunks. -/
theorem build_data_fragmentGen (seq ft : Nat) (fm : FragmentMeta) (cs : List (List Nat))
    (hcs : cs.length = ft + 1) :
    build_data_from_fragments (fragmentGenAux seq ft fm 0 cs) = some cs.flatten := by
  cases cs with
  | nil => exact absurd hcs (by simp)
  | cons c rest =>
      have hfold := foldlM_placeFragment seq ft fm (c :: rest) []
      simp only [List.nil_append, List.length_nil] at hfold
      rw [build_data_from_fragments, fragmentGenAux_length seq ft fm 0 (c :: rest), hfold]
      simp only [fragmentGenAux, List.map_cons]
      rw [if_pos (by simp)]
      rw [if_pos (by
        simp only [List.length_cons, List.length_map,
          fragmentGenAux_length seq ft fm 1 rest]
        simp at hcs
        omega)]
      congr 1
      rw [map_unwrap_map_some, fragmentGenAux_data]
      rfl

/-- C3: fragmenting a payload of 1 to 256 times the per-fragment maximum
produces ceil(len/1152) fragments with frag ids 0..n-1, each carrying
frag_total = n-1 and the shared seq id and frag meta, and reassembling
them restores exactly the payload; fragmenting fails when more than 256
fragments would be needed. -/
theorem chunks_length_eq (data : List Nat) :
    (chunks 1152 data).length = (data.length + 1151) / 1152 := by
  have hcount : data.length / 1152 + (if data.length % 1152 ≠ 0 then 1 else 0)
      = (data.length + 1151) / 1152 := by
    split_ifs with h <;> omega
  rw [show chunks 1152 data = chunksAux 1152 data.length data from rfl,
    chunksAux_length_1152 data.length data (Nat.le_refl _), hcount]

theorem build_fragments_eq (data : List Nat) (seq : Nat) (fm : FragmentMeta)
    (h1 : 1 ≤ data.length) (hle : data.length ≤ 256 * 1152) :
    build_fragments_from_bytes data seq fm
      = some (fragmentGenAux seq ((data.length + 1151) / 1152 - 1) fm 0
          (chunks 1152 data), (data.length + 1151) / 1152 - 1) := by
  have hM : MAX_FRAGMENT_MESSAGE_SIZE = 1152 := rfl
  have hMM : MAX_FRAGMENTS_IN_MESSAGE = 256 := rfl
  have hne : ¬ (data = []) := by
    intro h
    rw [h] at h1
    simp at h1
  have hcount : data.length / 1152 + (if data.length % 1152 ≠ 0 then 1 else 0)
      = (data.length + 1151) / 1152 := by
    split_ifs with h <;> omega
  unfold build_fragments_from_bytes
  rw [if_neg hne]
  simp only [hM, hMM]
  rw [hcount]
  rw [if_neg (by omega)]

theorem fragment_reassemble_roundtrip (data : List Nat) (seq : Nat) (fm : FragmentMeta)
    (h1 : 1 ≤ data.length) :
    (data.length ≤ 256 * MAX_FRAGMENT_MESSAGE_SIZE →
      ∃ frags, build_fragments_from_bytes data seq fm
          = some (frags, (data.length + 1151) / 1152 - 1) ∧
        frags.length = (data.length + 1151) / 1152 ∧
        frags.map Fragment.frag_id = List.range frags.length ∧
        (∀ f ∈ frags, f.seq_id = seq ∧
          f.frag_total = (data.length + 1151) / 1152 - 1 ∧ f.frag_meta = fm) ∧
        build_data_from_fragments frags = some data) ∧
    (256 * MAX_FRAGMENT_MESSAGE_SIZE < data.length →
      build_fragments_from_bytes data seq fm = none) := by
  have hM : MAX_FRAGMENT_MESSAGE_SIZE = 1152 := rfl
  have hMM : MAX_FRAGMENTS_IN_MESSAGE = 256 := rfl
  have hne : ¬ (data = []) := by
    intro h
    rw [h] at h1
    simp at h1
  have hcount : data.length / 1152 + (if data.length % 1152 ≠ 0 then 1 else 0)
      = (data.length + 1151) / 1152 := by
    split_ifs with h <;> omega
  have hchlen : (chunks 1152 data).length = (data.length + 1151) / 1152 :=
    chunks_length_eq data
  constructor
  · intro hle
    rw [hM] at hle
    have hbuild := build_fragments_eq data seq fm h1 hle
    refine ⟨_, hbuild, ?_, ?_, ?_, ?_⟩
    · rw [fragmentGenAux_length, hchlen]
    · rw [fragmentGenAux_frag_ids, fragmentGenAux_length, List.range_eq_range']
    · intro f hf
      obtain ⟨ha, hb, hc, _, _⟩ := fragmentGenAux_fields seq _ fm 0 _ f hf
      exact ⟨ha, hb, hc⟩
    · rw [build_data_fragmentGen seq ((data.length + 1151) / 1152 - 1) fm
        (chunks 1152 data) (by rw [hchlen]; omega)]
      rw [chunks_join 1152 (by omega)]
  · intro hgt
    rw [hM] at hgt
    unfold build_fragments_from_bytes
    rw [if_neg hne]
    simp only [hM, hMM]
    rw [hcount]
    rw [if_pos (by omega)]

/-- Witness for the C3 round-trip theorem at a concrete three-byte payload. -/
theorem fragment_reassemble_roundtrip_witness :
    (([170, 5, 9] : List Nat).length ≤ 256 * MAX_FRAGMENT_MESSAGE_SIZE →
      ∃ frags, build_fragments_from_bytes [170, 5, 9] 3 .key
          = some (frags, (([170, 5, 9] : List Nat).length + 1151) / 1152 - 1) ∧
        frags.length = (([170, 5, 9] : List Nat).length + 1151) / 1152 ∧
        frags.map Fragment.frag_id = List.range frags.length ∧
        (∀ f ∈ frags, f.seq_id = 3 ∧
          f.frag_total = (([170, 5, 9] : List Nat).length + 1151) / 1152 - 1 ∧
          f.frag_meta = .key) ∧
        build_data_from_fragments frags = some [170, 5, 9]) ∧
    (256 * MAX_FRAGMENT_MESSAGE_SIZE < ([170, 5, 9] : List Nat).length →
      build_fragments_from_bytes [170, 5, 9] 3 .key = none) :=
  fragment_reassemble_roundtrip [170, 5, 9] 3 .key (by decide)

/-! ## Fragment combiner (fragment_combiner.rs, the iteration-counter
revision in the snapshot: timestamps are plain iteration numbers) -/

/-- ACK_SEND_INTERVAL: the consts.rs in the snapshot declares 50
(as a 50 ms Duration, with a doc comment speaking of iterations); the
combiner compares it against iteration counters. -/
def ACK_SEND_INTERVAL : Nat := 50

/-- FragmentSetState from fragment_combiner.rs; the Complete payload is
(iteration_n of completion, number of fragments stored as a u8). -/
inductive FragmentSetState
  | incomplete (fragments : List (Nat × Fragment))
  | complete (iteration_n : Nat) (frag_total : Nat)
  deriving DecidableEq, Repr

/-- FragmentSet from fragment_combiner.rs. The FnvHashMap of fragments is
modelled as an association list with unique keys; insertion overwrites in
place or appends. -/
structure FragmentSet where
  seq_id : Nat
  state : FragmentSetState
  fragment_meta : FragmentMeta
  last_sent_ack_iteration : Option Nat
  last_received_iteration : Nat
  acks_sent_count : Nat
  deriving DecidableEq, Repr

/-- HashMap::insert on the association-list model. -/
def alistInsert {α : Type} (k : Nat) (v : α) : List (Nat × α) → List (Nat × α)
  | [] => [(k, v)]
  | (k2, v2) :: rest =>
      if k = k2 then (k, v) :: rest else (k2, v2) :: alistInsert k v rest

/-- HashMap::get on the association-list model. -/
def alistLookup {α : Type} (k : Nat) : List (Nat × α) → Option α
  | [] => none
  | (k2, v2) :: rest => if k = k2 then some v2 else alistLookup k rest

/-- HashMap::remove on the association-list model. -/
def alistRemove {α : Type} (k : Nat) : List (Nat × α) → List (Nat × α)
  | [] => []
  | (k2, v2) :: rest => if k = k2 then rest else (k2, v2) :: alistRemove k rest

/-- FragmentSet::complete: swap the state for
Complete(iteration_n, fragments.len() as u8) — note the u8 cast wraps a
256-fragment set to 0 — reset the ack-sent counters, and hand back the
fragment map. The panic on an already-complete set is none. -/
def FragmentSet.complete (s : FragmentSet) (iteration_n : Nat) :
    Option (List (Nat × Fragment) × FragmentSet) :=
  match s.state with
  | .incomplete fragments =>
      some (fragments,
        { s with
          state := .complete iteration_n (fragments.length % 256)
          last_sent_ack_iteration := none
          acks_sent_count := 0 })
  | .complete _ _ => none

/-- FragmentSet::with_capacity (the capacity itself has no semantic
content). -/
def FragmentSet.with_capacity (seq_id iteration_n : Nat) (frag_meta : FragmentMeta) :
    FragmentSet :=
  { seq_id := seq_id
    fragment_meta := frag_meta
    state := .incomplete []
    last_sent_ack_iteration := none
    last_received_iteration := iteration_n
    acks_sent_count := 0 }

/-- The fragments.values().next() frag_total read of generate_ack; none is
the unwrap panic on an empty map. -/
def firstValueFragTotal (fragments : List (Nat × Fragment)) : Option Nat :=
  fragments.head?.map (fun p => p.2.frag_total)

/-- FragmentSet::generate_ack: an all-ones bitmap for a complete set, a
bitmap of the held frag ids for an incomplete one. -/
def FragmentSet.generate_ack (s : FragmentSet) : Option (List Nat) :=
  match s.state with
  | .complete _ frag_total => some (create_complete frag_total)
  | .incomplete fragments =>
      match firstValueFragTotal fragments with
      | none => none
      | some frag_total => create_from_frag_ids (fragments.map Prod.fst) frag_total

/-- FragmentSet::send_ack. -/
def FragmentSet.send_ack (s : FragmentSet) (iteration_n : Nat) : FragmentSet :=
  { s with
    last_sent_ack_iteration := some iteration_n
    acks_sent_count := s.acks_sent_count + 1 }

/-- FragmentSet::should_send_ack: everything but Forgettable is acked. -/
def FragmentSet.should_send_ack (s : FragmentSet) : Bool :=
  s.fragment_meta ≠ FragmentMeta.forgettable

/-- FragmentSet::is_incomplete. -/
def FragmentSet.is_incomplete (s : FragmentSet) : Bool :=
  match s.state with
  | .incomplete _ => true
  | .complete _ _ => false

/-- FragmentSet::is_stale from the iteration-based revision: an incomplete
Forgettable set is stale 30 iterations after the last received fragment
and any other incomplete set after 3000 iterations; a complete set is
stale when its meta is Forgettable or at least 10 acks have been sent. -/
def FragmentSet.is_stale (s : FragmentSet) (iteration_n : Nat) : Bool :=
  if s.is_incomplete then
    match s.fragment_meta with
    | .forgettable => decide (iteration_n ≥ s.last_received_iteration + 30)
    | _ => decide (iteration_n ≥ s.last_received_iteration + 3000)
  else
    decide (s.fragment_meta = FragmentMeta.forgettable) || decide (s.acks_sent_count ≥ 10)

/-- itertools all_equal over the frag totals. -/
def allEqual : List Nat → Bool
  | [] => true
  | x :: rest => rest.all (fun y => y = x)

/-- FragmentCombiner from fragment_combiner.rs. -/
structure FragmentCombiner where
  pending_fragments : List (Nat × FragmentSet)
  out_messages : List (Nat × List Nat)
  deriving DecidableEq, Repr

/-- FragmentCombiner::new. -/
def FragmentCombiner.new : FragmentCombiner := ⟨[], []⟩

/-- FragmentCombiner::transform_message. none is the Err(()) of a corrupt
set (mixed frag totals or reassembly failure); the panics on a missing
seq id or already-complete set, which push never triggers, are none too. -/
def FragmentCombiner.transform_message (c : FragmentCombiner) (seq_id iteration_n : Nat) :
    Option FragmentCombiner :=
  match alistLookup seq_id c.pending_fragments with
  | none => none
  | some fragment_set =>
      match fragment_set.complete iteration_n with
      | none => none
      | some (fragments, completed_set) =>
          if allEqual (fragments.map (fun p => p.2.frag_total)) then
            match build_data_from_fragments (fragments.map Prod.snd) with
            | none => none
            | some message =>
                some
                  { pending_fragments :=
                      alistInsert seq_id completed_set c.pending_fragments
                    out_messages := c.out_messages ++ [(seq_id, message)] }
          else none

/-- FragmentCombiner::next_out_message. -/
def FragmentCombiner.next_out_message (c : FragmentCombiner) :
    Option (Nat × List Nat) × FragmentCombiner :=
  match c.out_messages with
  | [] => (none, c)
  | m :: rest => (some m, { c with out_messages := rest })

/-- FragmentCombiner::push: locate or create the set, refresh
last_received_iteration, reset acks_sent_count while incomplete, insert
the fragment (overwriting a duplicate frag id), and attempt the transform
once the map holds frag_total+1 fragments, deleting the set when the
transform fails. A fragment for an already-complete set is dropped. -/
def FragmentCombiner.push (c : FragmentCombiner) (fragment : Fragment)
    (iteration_n : Nat) : FragmentCombiner :=
  let seq_id := fragment.seq_id
  let set0 := match alistLookup seq_id c.pending_fragments with
    | some s => s
    | none => FragmentSet.with_capacity seq_id iteration_n fragment.frag_meta
  let set1 := { set0 with last_received_iteration := iteration_n }
  let set2 := if set1.is_incomplete then { set1 with acks_sent_count := 0 } else set1
  match set2.state with
  | .incomplete fragments =>
      let fragments2 := alistInsert fragment.frag_id fragment fragments
      let set3 := { set2 with state := .incomplete fragments2 }
      let c2 := { c with pending_fragments := alistInsert seq_id set3 c.pending_fragments }
      if fragments2.length ≥ fragment.frag_total + 1 then
        match c2.transform_message seq_id iteration_n with
        | some c3 => c3
        | none => { c2 with pending_fragments := alistRemove seq_id c2.pending_fragments }
      else c2
  | .complete _ _ =>
      { c with pending_fragments := alistInsert seq_id set2 c.pending_fragments }

/-- The per-set walk of FragmentCombiner::tick: drop stale sets, emit an
ack for a set that should send one and whose last ack is at least
ACK_SEND_INTERVAL iterations old (or was never sent). none propagates the
generate_ack panic. -/
def tickAux (iteration_n : Nat) : List (Nat × FragmentSet) →
    Option (List (Nat × FragmentSet) × List (Nat × List Nat))
  | [] => some ([], [])
  | (sid, s) :: rest =>
      if s.is_stale iteration_n then tickAux iteration_n rest
      else
        let should_send := s.should_send_ack &&
          (match s.last_sent_ack_iteration with
           | some last_iter => decide (iteration_n - last_iter ≥ ACK_SEND_INTERVAL)
           | none => true)
        if should_send then
          match s.generate_ack with
          | none => none
          | some ack =>
              match tickAux iteration_n rest with
              | none => none
              | some (sets, acks) =>
                  some ((sid, s.send_ack iteration_n) :: sets, (sid, ack) :: acks)
        else
          match tickAux iteration_n rest with
          | none => none
          | some (sets, acks) => some ((sid, s) :: sets, acks)

/-- FragmentCombiner::tick. -/
def FragmentCombiner.tick (c : FragmentCombiner) (iteration_n : Nat) :
    Option (FragmentCombiner × List (Nat × List Nat)) :=
  match tickAux iteration_n c.pending_fragments with
  | none => none
  | some (sets, acks) => some ({ c with pending_fragments := sets }, acks)

/-! ### Association-list lemmas -/

def keysNodup {α : Type} (l : List (Nat × α)) : Prop := (l.map Prod.fst).Nodup

theorem alistInsert_ne_nil {α : Type} (k : Nat) (v : α) (l : List (Nat × α)) :
    alistInsert k v l ≠ [] := by
  cases l with
  | nil => simp [alistInsert]
  | cons p rest =>
      obtain ⟨k2, v2⟩ := p
      rw [alistInsert]
      split <;> simp

theorem alistLookup_insert_self {α : Type} (k : Nat) (v : α) (l : List (Nat × α)) :
    alistLookup k (alistInsert k v l) = some v := by
  induction l with
  | nil => simp [alistInsert, alistLookup]
  | cons p rest ih =>
      obtain ⟨k2, v2⟩ := p
      rw [alistInsert]
      by_cases h : k = k2
      · rw [if_pos h, alistLookup, if_pos rfl]
      · rw [if_neg h, alistLookup, if_neg h]
        exact ih

theorem mem_alistInsert {α : Type} (k : Nat) (v : α) (l : List (Nat × α)) (p : Nat × α)
    (h : p ∈ alistInsert k v l) : p = (k, v) ∨ p ∈ l := by
  induction l with
  | nil =>
      rw [alistInsert] at h
      rcases List.mem_cons.mp h with h | h
      · exact Or.inl h
      · cases h
  | cons q rest ih =>
      obtain ⟨k2, v2⟩ := q
      rw [alistInsert] at h
      split at h
      · rcases List.mem_cons.mp h with h | h
        · exact Or.inl h
        · exact Or.inr (List.mem_cons_of_mem _ h)
      · rcases List.mem_cons.mp h with h | h
        · exact Or.inr (h ▸ List.mem_cons_self _ _)
        · rcases ih h with h | h
          · exact Or.inl h
          · exact Or.inr (List.mem_cons_of_mem _ h)

theorem mem_alistRemove {α : Type} (k : Nat) (l : List (Nat × α)) (p : Nat × α)
    (h : p ∈ alistRemove k l) : p ∈ l := by
  induction l with
  | nil => cases h
  | cons q rest ih =>
      obtain ⟨k2, v2⟩ := q
      rw [alistRemove] at h
      split at h
      · exact List.mem_cons_of_mem _ h
      · rcases List.mem_cons.mp h with h | h
        · exact h ▸ List.mem_cons_self _ _
        · exact List.mem_cons_of_mem _ (ih h)

theorem mem_keys_alistInsert {α : Type} (j k : Nat) (v : α) (l : List (Nat × α)) :
    j ∈ (alistInsert k v l).map Prod.fst ↔ j = k ∨ j ∈ l.map Prod.fst := by
  induction l with
  | nil => simp [alistInsert]
  | cons q rest ih =>
      obtain ⟨k2, v2⟩ := q
      rw [alistInsert]
      by_cases h : k = k2
      · subst h
        simp
      · rw [if_neg h]
        simp only [List.map_cons, List.mem_cons, ih]
        constructor
        · rintro (h1 | h1 | h1)
          · exact Or.inr (Or.inl h1)
          · exact Or.inl h1
          · exact Or.inr (Or.inr h1)
        · rintro (h1 | h1 | h1)
          · exact Or.inr (Or.inl h1)
          · exact Or.inl h1
          · exact Or.inr (Or.inr h1)

theorem keysNodup_alistInsert {α : Type} (k : Nat) (v : α) (l : List (Nat × α))
    (h : keysNodup l) : keysNodup (alistInsert k v l) := by
  induction l with
  | nil => simp [keysNodup, alistInsert]
  | cons q rest ih =>
      obtain ⟨k2, v2⟩ := q
      rw [keysNodup, List.map_cons, List.nodup_cons] at h
      rw [keysNodup, alistInsert]
      by_cases hk : k = k2
      · subst hk
        rw [if_pos rfl]
        simp only [List.map_cons, List.nodup_cons]
        exact h
      · rw [if_neg hk]
        simp only [List.map_cons, List.nodup_cons]
        refine ⟨?_, ih h.2⟩
        intro hmem
        rcases (mem_keys_alistInsert k2 k v rest).mp hmem with h1 | h1
        · exact hk h1.symm
        · exact h.1 h1

theorem alistLookup_eq_none {α : Type} (k : Nat) (l : List (Nat × α))
    (h : k ∉ l.map Prod.fst) : alistLookup k l = none := by
  induction l with
  | nil => rfl
  | cons q rest ih =>
      obtain ⟨k2, v2⟩ := q
      rw [List.map_cons, List.mem_cons] at h
      rw [alistLookup, if_neg (fun he => h (Or.inl he))]
      exact ih (fun he => h (Or.inr he))

theorem alistLookup_remove_self {α : Type} (k : Nat) (l : List (Nat × α))
    (h : keysNodup l) : alistLookup k (alistRemove k l) = none := by
  induction l with
  | nil => rfl
  | cons q rest ih =>
      obtain ⟨k2, v2⟩ := q
      rw [keysNodup, List.map_cons, List.nodup_cons] at h
      rw [alistRemove]
      by_cases hk : k = k2
      · rw [if_pos hk]
        subst hk
        exact alistLookup_eq_none k rest h.1
      · rw [if_neg hk, alistLookup, if_neg hk]
        exact ih h.2

/-! ### Case characterizations of push and transform_message -/

theorem push_of_complete (c : FragmentCombiner) (f : Fragment) (n : Nat)
    (s0 : FragmentSet) (ci ft : Nat)
    (hlook : alistLookup f.seq_id c.pending_fragments = some s0)
    (hstate : s0.state = .complete ci ft) :
    c.push f n = FragmentCombiner.mk
      (alistInsert f.seq_id { s0 with last_received_iteration := n } c.pending_fragments)
      c.out_messages := by
  simp only [FragmentCombiner.push, hlook, FragmentSet.is_incomplete, hstate]
  simp

theorem push_of_incomplete (c : FragmentCombiner) (f : Fragment) (n : Nat)
    (s0 : FragmentSet) (frags : List (Nat × Fragment))
    (hlook : alistLookup f.seq_id c.pending_fragments = some s0)
    (hstate : s0.state = .incomplete frags) :
    c.push f n =
      (let set3 : FragmentSet := { s0 with state := .incomplete (alistInsert f.frag_id f frags), last_received_iteration := n, acks_sent_count := 0 }
       let c2 : FragmentCombiner := FragmentCombiner.mk
         (alistInsert f.seq_id set3 c.pending_fragments) c.out_messages
       if (alistInsert f.frag_id f frags).length ≥ f.frag_total + 1 then
         match c2.transform_message f.seq_id n with
         | some c3 => c3
         | none =>
             FragmentCombiner.mk (alistRemove f.seq_id c2.pending_fragments) c2.out_messages
       else c2) := by
  simp only [FragmentCombiner.push, hlook, FragmentSet.is_incomplete, hstate]
  simp

theorem push_of_new (c : FragmentCombiner) (f : Fragment) (n : Nat)
    (hlook : alistLookup f.seq_id c.pending_fragments = none) :
    c.push f n =
      (let set3 : FragmentSet := { seq_id := f.seq_id, state := .incomplete [(f.frag_id, f)], fragment_meta := f.frag_meta, last_sent_ack_iteration := none, last_received_iteration := n, acks_sent_count := 0 }
       let c2 : FragmentCombiner := FragmentCombiner.mk
         (alistInsert f.seq_id set3 c.pending_fragments) c.out_messages
       if 1 ≥ f.frag_total + 1 then
         match c2.transform_message f.seq_id n with
         | some c3 => c3
         | none =>
             FragmentCombiner.mk (alistRemove f.seq_id c2.pending_fragments) c2.out_messages
       else c2) := by
  simp only [FragmentCombiner.push, hlook, FragmentSet.with_capacity,
    FragmentSet.is_incomplete]
  simp [alistInsert]

theorem transform_message_of_incomplete (c : FragmentCombiner) (sid n : Nat)
    (s : FragmentSet) (frags : List (Nat × Fragment))
    (hlook : alistLookup sid c.pending_fragments = some s)
    (hstate : s.state = .incomplete frags) :
    c.transform_message sid n =
      (if allEqual (frags.map (fun p => p.2.frag_total)) then
        match build_data_from_fragments (frags.map Prod.snd) with
        | none => none
        | some message =>
            some (FragmentCombiner.mk
              (alistInsert sid ({ s with state := .complete n (frags.length % 256), last_sent_ack_iteration := none, acks_sent_count := 0 }) c.pending_fragments)
              (c.out_messages ++ [(sid, message)]))
      else none) := by
  simp only [FragmentCombiner.transform_message, hlook, FragmentSet.complete, hstate]

/-! ## Claims C1 and C7: ack bitmap shape and round-trip -/

theorem foldlM_ackSetBit_length (S : List Nat) :
    ∀ acc r : List Nat, List.foldlM ackSetBit acc S = some r → r.length = acc.length := by
  induction S with
  | nil =>
      intro acc r h
      cases h
      rfl
  | cons s S ih =>
      intro acc r h
      rw [List.foldlM_cons] at h
      cases hstep : ackSetBit acc s with
      | none =>
          rw [hstep] at h
          simp at h
      | some acc2 =>
          rw [hstep] at h
          have h2 : List.foldlM ackSetBit acc2 S = some r := h
          rw [ih acc2 r h2]
          unfold ackSetBit at hstep
          split at hstep
          · cases hstep
            exact List.length_set acc _ _
          · cases hstep

theorem ack_size_eq_ceil (n : Nat) : ack_size_from_frag_total n = (n + 7) / 8 := by
  unfold ack_size_from_frag_total
  split_ifs with h <;> omega

/-- C1 counterexample: pushing the single fragment of a one-fragment Key
message (frag_total = 0) completes the set, and the ack generated for it
on the next combiner tick is the single byte 0xFF, not the 0x01 the claim
requires. -/
theorem single_fragment_complete_ack_counterexample :
    ((FragmentCombiner.new.push ⟨1, 0, 0, .key, [170]⟩ 0).tick 1).map Prod.snd
        = some [(1, [255])] ∧ ¬ ([255] : List Nat) = [1] := by decide

/-- C1 amended: completing a FragmentSet stores the fragment count as a
u8, and the complete-set ack is all-0xFF bytes of length the ceiling of
count / 8 (so one byte 0xFF for a single-fragment message); the ack of an
incomplete set whose fragments carry frag_total ft has length the ceiling
of ft / 8, not of (ft + 1) / 8. -/
theorem generate_ack_shape (s : FragmentSet) (frags : List (Nat × Fragment)) (i : Nat)
    (hstate : s.state = .incomplete frags) :
    (∀ fs s2, s.complete i = some (fs, s2) →
      fs = frags ∧
        s2.generate_ack = some (List.replicate ((frags.length % 256 + 7) / 8) 255)) ∧
    (∀ ft a, firstValueFragTotal frags = some ft → s.generate_ack = some a →
      a.length = (ft + 7) / 8) := by
  constructor
  · intro fs s2 hc
    rw [FragmentSet.complete, hstate] at hc
    rw [Option.some.injEq, Prod.mk.injEq] at hc
    obtain ⟨hfs, hs2⟩ := hc
    refine ⟨hfs.symm, ?_⟩
    rw [← hs2]
    simp only [FragmentSet.generate_ack, create_complete, ack_size_eq_ceil]
  · intro ft a hft ha
    simp only [FragmentSet.generate_ack, hstate, hft] at ha
    unfold create_from_frag_ids at ha
    have hlen := foldlM_ackSetBit_length _ _ _ ha
    rw [List.length_replicate, ack_size_eq_ceil] at hlen
    exact hlen

/-- Witness for the amended C1 theorem at a singleton fragment set. -/
theorem generate_ack_shape_witness :
    ((⟨1, .incomplete [(0, ⟨1, 0, 0, .key, [170]⟩)], .key, none, 0, 0⟩ : FragmentSet).state
        = .incomplete [(0, ⟨1, 0, 0, .key, [170]⟩)]) ∧
      (∀ fs s2, (⟨1, .incomplete [(0, ⟨1, 0, 0, .key, [170]⟩)], .key, none, 0,
          0⟩ : FragmentSet).complete 0 = some (fs, s2) →
        fs = [(0, ⟨1, 0, 0, .key, [170]⟩)] ∧
          s2.generate_ack = some (List.replicate
            (([(0, (⟨1, 0, 0, .key, [170]⟩ : Fragment))].length % 256 + 7) / 8) 255)) ∧
      (∀ ft a, firstValueFragTotal [(0, ⟨1, 0, 0, .key, [170]⟩)] = some ft →
        (⟨1, .incomplete [(0, ⟨1, 0, 0, .key, [170]⟩)], .key, none, 0,
          0⟩ : FragmentSet).generate_ack = some a →
        a.length = (ft + 7) / 8) :=
  ⟨rfl, generate_ack_shape ⟨1, .incomplete [(0, ⟨1, 0, 0, .key, [170]⟩)], .key, none, 0, 0⟩
    [(0, ⟨1, 0, 0, .key, [170]⟩)] 0 rfl⟩

/-- C7 counterexample: for frag_total 0 the bitmap built from the empty
set of received ids has zero bytes, and reading back the missing ids
yields the empty list although the claim requires the missing set to be
the full range, namely the singleton 0. -/
theorem ack_bitmap_roundtrip_counterexample :
    create_from_frag_ids [] 0 = some [] ∧
      frag_ids_missing_from_ack [] 0 = [] ∧
      ¬ (0 ∈ frag_ids_missing_from_ack [] 0) := by decide

/-- C7 amended: building an ack bitmap from a set S of frag ids bounded by
frag_total succeeds exactly for ids below 8 times the bitmap byte count,
reading back the received ids gives S, and the missing ids are the ids at
most frag_total that the bitmap can represent and that are not in S; ids
at positions at least 8 times the byte count (which exist iff frag_total
is a positive multiple of 8, and always include frag_total itself in that
case) are never reported missing. -/
theorem ack_bitmap_roundtrip (ft : Nat) (S : List Nat)
    (hS1 : ∀ s ∈ S, s ≤ ft)
    (hS2 : ∀ s ∈ S, s < 8 * ack_size_from_frag_total ft) :
    ∃ bytes, create_from_frag_ids S ft = some bytes ∧
      (∀ i, i ∈ frag_ids_received_from_ack bytes ft ↔ i ∈ S) ∧
      (∀ i, i ∈ frag_ids_missing_from_ack bytes ft ↔
        (i ≤ ft ∧ i < 8 * ack_size_from_frag_total ft ∧ i ∉ S)) := by
  obtain ⟨r, hr, hrlen, hrbits⟩ := create_from_frag_ids_spec S ft
    (by intro s hs; have := hS2 s hs; omega)
  refine ⟨r, hr, ?_, ?_⟩
  · intro i
    rw [mem_received_iff, hrlen]
    constructor
    · rintro ⟨h1, h2, h3⟩
      exact (hrbits i).mp h2
    · intro hi
      exact ⟨by have := hS2 i hi; omega, (hrbits i).mpr hi, hS1 i hi⟩
  · intro i
    rw [mem_missing_iff, hrlen]
    constructor
    · rintro ⟨h1, h2, h3⟩
      exact ⟨h3, by omega, fun hi => h2 ((hrbits i).mpr hi)⟩
    · rintro ⟨h1, h2, h3⟩
      exact ⟨by omega, fun hb => h3 ((hrbits i).mp hb), h1⟩

/-- Witness for the amended C7 theorem at the frag id set of the ack_ser
test of ack.rs. -/
theorem ack_bitmap_roundtrip_witness :
    ∃ bytes, create_from_frag_ids [1, 2, 8, 9] 15 = some bytes ∧
      (∀ i, i ∈ frag_ids_received_from_ack bytes 15 ↔ i ∈ [1, 2, 8, 9]) ∧
      (∀ i, i ∈ frag_ids_missing_from_ack bytes 15 ↔
        (i ≤ 15 ∧ i < 8 * ack_size_from_frag_total 15 ∧ i ∉ [1, 2, 8, 9])) :=
  ack_bitmap_roundtrip 15 [1, 2, 8, 9] (by decide) (by decide)

/-! ## Claim C5: ack emission pacing during tick -/

/-- C5 counterexample: a complete Key set keeps emitting acks past the
second one. After acks at iterations 1 and 51 the set holds
acks_sent_count = 2, and the tick at iteration 101 still emits a third
ack, contradicting the acks_sent_count < 2 bound of the claim. -/
theorem ack_pacing_counterexample :
    ((FragmentCombiner.new.push ⟨1, 0, 0, .key, [1]⟩ 0).tick 1).bind
        (fun r1 => (r1.1.tick 51).bind (fun r2 =>
          (r2.1.tick 101).map (fun r3 =>
            ((alistLookup 1 r2.1.pending_fragments).map FragmentSet.acks_sent_count,
             r3.2))))
      = some (some 2, [(1, [255])]) := by decide

/-- C5 amended: during a combiner tick an ack is emitted for a non-stale
set exactly when its fragment_meta is not Forgettable and either no ack
was sent before or at least ACK_SEND_INTERVAL iterations passed since the
last one; there is no acks_sent_count < 2 bound (emission of a complete
set is instead capped at 10 by staleness). An emission records the
iteration and increments acks_sent_count, and push resets
acks_sent_count to zero only while the set is still incomplete, leaving
the counter of a complete set unchanged. -/
theorem ack_emission_policy (n sid : Nat) (s : FragmentSet)
    (hstale : s.is_stale n = false) :
    (∀ sets acks, tickAux n [(sid, s)] = some (sets, acks) →
      ((∃ a, acks = [(sid, a)] ∧ s.generate_ack = some a ∧
          sets = [(sid, s.send_ack n)]) ∨ (acks = [] ∧ sets = [(sid, s)])) ∧
      (acks ≠ [] ↔ (s.fragment_meta ≠ FragmentMeta.forgettable ∧
        (s.last_sent_ack_iteration = none ∨
          ∃ last, s.last_sent_ack_iteration = some last ∧
            ACK_SEND_INTERVAL ≤ n - last)))) ∧
    (s.send_ack n).acks_sent_count = s.acks_sent_count + 1 ∧
    (s.send_ack n).last_sent_ack_iteration = some n ∧
    (∀ (c : FragmentCombiner) (f : Fragment) (s0 : FragmentSet),
      keysNodup c.pending_fragments →
      alistLookup f.seq_id c.pending_fragments = some s0 →
      (s0.is_incomplete = true →
        ∀ s2, alistLookup f.seq_id (c.push f n).pending_fragments = some s2 →
          s2.acks_sent_count = 0) ∧
      (s0.is_incomplete = false →
        ∀ s2, alistLookup f.seq_id (c.push f n).pending_fragments = some s2 →
          s2.acks_sent_count = s0.acks_sent_count)) := by
  refine ⟨?_, rfl, rfl, ?_⟩
  · intro sets acks h
    simp only [tickAux, hstale] at h
    simp only [Bool.false_eq_true, if_false] at h
    have hcond : ((s.should_send_ack &&
        (match s.last_sent_ack_iteration with
          | some last_iter => decide (n - last_iter ≥ ACK_SEND_INTERVAL)
          | none => true)) = true)
        ↔ (s.fragment_meta ≠ FragmentMeta.forgettable ∧
            (s.last_sent_ack_iteration = none ∨
              ∃ last, s.last_sent_ack_iteration = some last ∧
                ACK_SEND_INTERVAL ≤ n - last)) := by
      rw [Bool.and_eq_true]
      constructor
      · rintro ⟨h1, h2⟩
        refine ⟨by simpa [FragmentSet.should_send_ack] using h1, ?_⟩
        cases hl : s.last_sent_ack_iteration with
        | none => exact Or.inl rfl
        | some last =>
            rw [hl] at h2
            exact Or.inr ⟨last, rfl, by simpa using h2⟩
      · rintro ⟨h1, h2⟩
        refine ⟨by simpa [FragmentSet.should_send_ack] using h1, ?_⟩
        rcases h2 with h2 | ⟨last, hl, h3⟩
        · rw [h2]
        · rw [hl]
          simpa using h3
    by_cases hb : (s.should_send_ack &&
        (match s.last_sent_ack_iteration with
          | some last_iter => decide (n - last_iter ≥ ACK_SEND_INTERVAL)
          | none => true)) = true
    · rw [if_pos hb] at h
      cases hga : s.generate_ack with
      | none =>
          rw [hga] at h
          cases h
      | some a =>
          rw [hga] at h
          rw [Option.some.injEq, Prod.mk.injEq] at h
          obtain ⟨hsets, hacks⟩ := h
          constructor
          · exact Or.inl ⟨a, hacks.symm, rfl, hsets.symm⟩
          · rw [← hacks]
            constructor
            · intro _
              exact hcond.mp hb
            · intro _
              simp
    · rw [if_neg hb] at h
      rw [Option.some.injEq, Prod.mk.injEq] at h
      obtain ⟨hsets, hacks⟩ := h
      constructor
      · exact Or.inr ⟨hacks.symm, hsets.symm⟩
      · rw [← hacks]
        constructor
        · intro hne
          exact absurd rfl hne
        · intro hc
          exact absurd (hcond.mpr hc) hb
  · intro c f s0 hnodup hlook
    constructor
    · intro hinc s2 hl2
      cases hs : s0.state with
      | complete ci ft =>
          rw [FragmentSet.is_incomplete, hs] at hinc
          cases hinc
      | incomplete frags =>
          rw [push_of_incomplete c f n s0 frags hlook hs] at hl2
          simp only [] at hl2
          by_cases htrig : (alistInsert f.frag_id f frags).length ≥ f.frag_total + 1
          · rw [if_pos htrig] at hl2
            have hlook2 : alistLookup f.seq_id
                (alistInsert f.seq_id
                  ({ s0 with state := .incomplete (alistInsert f.frag_id f frags), last_received_iteration := n, acks_sent_count := 0 })
                  c.pending_fragments)
                = some ({ s0 with state := .incomplete (alistInsert f.frag_id f frags), last_received_iteration := n, acks_sent_count := 0 }) :=
              alistLookup_insert_self _ _ _
            rw [transform_message_of_incomplete _ _ _ _ _ hlook2 rfl] at hl2
            by_cases heq : allEqual (((alistInsert f.frag_id f frags)).map
                (fun p => p.2.frag_total))
            · rw [if_pos heq] at hl2
              cases hbuild : build_data_from_fragments
                  ((alistInsert f.frag_id f frags).map Prod.snd) with
              | none =>
                  rw [hbuild] at hl2
                  rw [alistLookup_remove_self _ _
                    (keysNodup_alistInsert _ _ _ hnodup)] at hl2
                  cases hl2
              | some message =>
                  rw [hbuild] at hl2
                  rw [alistLookup_insert_self] at hl2
                  cases hl2
                  rfl
            · rw [if_neg heq] at hl2
              rw [alistLookup_remove_self _ _
                (keysNodup_alistInsert _ _ _ hnodup)] at hl2
              cases hl2
          · rw [if_neg htrig] at hl2
            rw [alistLookup_insert_self] at hl2
            cases hl2
            rfl
    · intro hcomp s2 hl2
      cases hs : s0.state with
      | incomplete frags =>
          rw [FragmentSet.is_incomplete, hs] at hcomp
          cases hcomp
      | complete ci ft =>
          rw [push_of_complete c f n s0 ci ft hlook hs] at hl2
          rw [alistLookup_insert_self] at hl2
          cases hl2
          rfl

/-- Witness for the amended C5 theorem at a concrete complete Key set. -/
theorem ack_emission_policy_witness :
    (∀ sets acks,
      tickAux 50 [(7, (⟨7, .complete 0 1, .key, none, 0, 0⟩ : FragmentSet))]
          = some (sets, acks) →
      ((∃ a, acks = [(7, a)] ∧
          (⟨7, .complete 0 1, .key, none, 0, 0⟩ : FragmentSet).generate_ack = some a ∧
          sets = [(7, (⟨7, .complete 0 1, .key, none, 0, 0⟩ : FragmentSet).send_ack 50)]) ∨
        (acks = [] ∧ sets = [(7, (⟨7, .complete 0 1, .key, none, 0, 0⟩ : FragmentSet))])) ∧
      (acks ≠ [] ↔
        ((⟨7, .complete 0 1, .key, none, 0, 0⟩ : FragmentSet).fragment_meta
            ≠ FragmentMeta.forgettable ∧
          ((⟨7, .complete 0 1, .key, none, 0, 0⟩ : FragmentSet).last_sent_ack_iteration
              = none ∨
            ∃ last, (⟨7, .complete 0 1, .key, none, 0,
                0⟩ : FragmentSet).last_sent_ack_iteration = some last ∧
              ACK_SEND_INTERVAL ≤ 50 - last)))) ∧
    ((⟨7, .complete 0 1, .key, none, 0, 0⟩ : FragmentSet).send_ack 50).acks_sent_count
      = (⟨7, .complete 0 1, .key, none, 0, 0⟩ : FragmentSet).acks_sent_count + 1 ∧
    ((⟨7, .complete 0 1, .key, none, 0,
        0⟩ : FragmentSet).send_ack 50).last_sent_ack_iteration = some 50 ∧
    (∀ (c : FragmentCombiner) (f : Fragment) (s0 : FragmentSet),
      keysNodup c.pending_fragments →
      alistLookup f.seq_id c.pending_fragments = some s0 →
      (s0.is_incomplete = true →
        ∀ s2, alistLookup f.seq_id (c.push f 50).pending_fragments = some s2 →
          s2.acks_sent_count = 0) ∧
      (s0.is_incomplete = false →
        ∀ s2, alistLookup f.seq_id (c.push f 50).pending_fragments = some s2 →
          s2.acks_sent_count = s0.acks_sent_count)) :=
  ack_emission_policy 50 7 ⟨7, .complete 0 1, .key, none, 0, 0⟩ (by decide)

/-! ## Claim C8: sets with mixed frag totals -/

/-- C8 counterexample: a set that at one point simultaneously holds two
fragments with frag totals 2 and 5 still emits a reassembled message
later, because a duplicate frag id overwrites the mismatching fragment
before the transformation is attempted. -/
theorem mixed_set_counterexample :
    ((alistLookup 9 ((FragmentCombiner.new.push ⟨9, 0, 2, .key, [1]⟩ 0).push
        ⟨9, 1, 5, .key, [2]⟩ 0).pending_fragments).map
        (fun s => match s.state with
          | .incomplete frags => frags.map (fun p : Nat × Fragment => p.2.frag_total)
          | _ => ([] : List Nat)) = some [2, 5]) ∧
    ((((FragmentCombiner.new.push ⟨9, 0, 2, .key, [1]⟩ 0).push ⟨9, 1, 5, .key, [2]⟩
        0).push ⟨9, 1, 2, .key, [2]⟩ 0).push ⟨9, 2, 2, .key, [3]⟩ 0).out_messages
      = [(9, [1, 2, 3])] := by decide

/-- C8 amended: a FragmentSet whose fragments carry differing frag_total
values at the moment message transformation is attempted (once the map
holds at least frag_total+1 fragments, with frag_total that of the
arriving fragment) pushes no message and is deleted from
pending_fragments; however a mismatching fragment can be overwritten by a
later duplicate frag id, after which the set completes normally. -/
theorem mixed_set_transform (c : FragmentCombiner) (f : Fragment) (n : Nat)
    (s0 : FragmentSet) (frags0 : List (Nat × Fragment))
    (hnodup : keysNodup c.pending_fragments)
    (hlook : alistLookup f.seq_id c.pending_fragments = some s0)
    (hstate : s0.state = .incomplete frags0)
    (hmix : allEqual ((alistInsert f.frag_id f frags0).map (fun p => p.2.frag_total))
      = false)
    (htrig : (alistInsert f.frag_id f frags0).length ≥ f.frag_total + 1) :
    (c.push f n).out_messages = c.out_messages ∧
    alistLookup f.seq_id (c.push f n).pending_fragments = none := by
  rw [push_of_incomplete c f n s0 frags0 hlook hstate]
  simp only []
  rw [if_pos htrig]
  rw [transform_message_of_incomplete _ _ _ _ _ (alistLookup_insert_self _ _ _) rfl]
  rw [if_neg (by simp [hmix])]
  exact ⟨rfl, alistLookup_remove_self _ _ (keysNodup_alistInsert _ _ _ hnodup)⟩

/-- Witness for the amended C8 theorem at a concrete mixed set. -/
theorem mixed_set_transform_witness :
    ((FragmentCombiner.mk
        [(9, ⟨9, .incomplete [(0, ⟨9, 0, 2, .key, [1]⟩)], .key, none, 0, 0⟩)] []).push
          ⟨9, 1, 0, .key, [2]⟩ 1).out_messages
      = (FragmentCombiner.mk
        [(9, ⟨9, .incomplete [(0, ⟨9, 0, 2, .key, [1]⟩)], .key, none, 0, 0⟩)]
          []).out_messages ∧
    alistLookup 9 ((FragmentCombiner.mk
        [(9, ⟨9, .incomplete [(0, ⟨9, 0, 2, .key, [1]⟩)], .key, none, 0, 0⟩)] []).push
          ⟨9, 1, 0, .key, [2]⟩ 1).pending_fragments = none :=
  mixed_set_transform
    (FragmentCombiner.mk
      [(9, ⟨9, .incomplete [(0, ⟨9, 0, 2, .key, [1]⟩)], .key, none, 0, 0⟩)] [])
    ⟨9, 1, 0, .key, [2]⟩ 1
    ⟨9, .incomplete [(0, ⟨9, 0, 2, .key, [1]⟩)], .key, none, 0, 0⟩
    [(0, ⟨9, 0, 2, .key, [1]⟩)]
    (by unfold keysNodup; decide) rfl rfl (by decide) (by decide)

/-! ## Claim C9: staleness and deletion policy of the combiner tick -/

theorem tickAux_keys (n : Nat) :
    ∀ (l sets : List (Nat × FragmentSet)) (acks : List (Nat × List Nat)),
      tickAux n l = some (sets, acks) →
      sets.map Prod.fst = (l.filter (fun p => ! p.2.is_stale n)).map Prod.fst := by
  intro l
  induction l with
  | nil =>
      intro sets acks h
      cases h
      rfl
  | cons p rest ih =>
      obtain ⟨sid, s⟩ := p
      intro sets acks h
      simp only [tickAux] at h
      by_cases hstale : s.is_stale n = true
      · rw [if_pos hstale] at h
        rw [List.filter_cons]
        simp only [hstale, Bool.not_true, Bool.false_eq_true, if_false]
        exact ih sets acks h
      · rw [if_neg hstale] at h
        have hsfalse : s.is_stale n = false := Bool.eq_false_iff.mpr hstale
        rw [List.filter_cons]
        simp only [hsfalse, Bool.not_false, if_true]
        by_cases hb : (s.should_send_ack &&
            (match s.last_sent_ack_iteration with
              | some last_iter => decide (n - last_iter ≥ ACK_SEND_INTERVAL)
              | none => true)) = true
        · rw [if_pos hb] at h
          cases hga : s.generate_ack with
          | none =>
              rw [hga] at h
              cases h
          | some a =>
              rw [hga] at h
              cases hrec : tickAux n rest with
              | none =>
                  rw [hrec] at h
                  cases h
              | some pr =>
                  obtain ⟨sets0, acks0⟩ := pr
                  rw [hrec] at h
                  rw [Option.some.injEq, Prod.mk.injEq] at h
                  obtain ⟨hsets, hacks⟩ := h
                  rw [← hsets]
                  simp only [List.map_cons]
                  rw [ih sets0 acks0 hrec]
        · rw [if_neg hb] at h
          cases hrec : tickAux n rest with
          | none =>
              rw [hrec] at h
              cases h
          | some pr =>
              obtain ⟨sets0, acks0⟩ := pr
              rw [hrec] at h
              rw [Option.some.injEq, Prod.mk.injEq] at h
              obtain ⟨hsets, hacks⟩ := h
              rw [← hsets]
              simp only [List.map_cons]
              rw [ih sets0 acks0 hrec]

/-- C9 counterexample: a completed Forgettable set (single-fragment
message pushed at iteration 0) is deleted at the very next tick, having
never sent an ack, so completion time plays no role; and a complete Key
set is stale exactly when 10 acks have been sent, independent of any
20-second window. -/
theorem staleness_counterexample :
    (FragmentCombiner.new.push ⟨1, 0, 0, .forgettable, [9]⟩ 0).tick 1
        = some (FragmentCombiner.mk [] [(1, [9])], []) ∧
    ((⟨2, .complete 0 1, .key, some 0, 0, 10⟩ : FragmentSet).is_stale 1 = true) ∧
    ((⟨2, .complete 0 1, .key, some 0, 0, 9⟩ : FragmentSet).is_stale 1 = false) := by
  decide

/-- C9 amended: the combiner tick deletes exactly the stale sets, where an
incomplete Forgettable set is stale 30 iterations after the last received
fragment, any other incomplete set 3000 iterations after it, and a
complete set is stale when its meta is Forgettable or at least 10 acks
have been sent for it; no time- or iteration-based window past completion
exists. -/
theorem staleness_policy (n : Nat) :
    (∀ (s : FragmentSet) frags, s.state = .incomplete frags →
      (s.is_stale n = true ↔
        ((s.fragment_meta = .forgettable ∧ s.last_received_iteration + 30 ≤ n) ∨
         (s.fragment_meta ≠ .forgettable ∧ s.last_received_iteration + 3000 ≤ n)))) ∧
    (∀ (s : FragmentSet) ci ft, s.state = .complete ci ft →
      (s.is_stale n = true ↔
        (s.fragment_meta = .forgettable ∨ 10 ≤ s.acks_sent_count))) ∧
    (∀ (c c2 : FragmentCombiner) (acks : List (Nat × List Nat)),
      c.tick n = some (c2, acks) →
      c2.pending_fragments.map Prod.fst
        = (c.pending_fragments.filter (fun p => ! p.2.is_stale n)).map Prod.fst) := by
  refine ⟨?_, ?_, ?_⟩
  · intro s frags hstate
    rw [FragmentSet.is_stale, FragmentSet.is_incomplete, hstate]
    cases hm : s.fragment_meta <;> simp [hm]
  · intro s ci ft hstate
    rw [FragmentSet.is_stale, FragmentSet.is_incomplete, hstate]
    cases hm : s.fragment_meta <;> simp [hm]
  · intro c c2 acks h
    rw [FragmentCombiner.tick] at h
    cases ht : tickAux n c.pending_fragments with
    | none =>
        rw [ht] at h
        cases h
    | some pr =>
        obtain ⟨sets, acks0⟩ := pr
        rw [ht] at h
        rw [Option.some.injEq, Prod.mk.injEq] at h
        obtain ⟨hc2, hacks⟩ := h
        rw [← hc2]
        exact tickAux_keys n c.pending_fragments sets acks0 ht

/-! ## Claim C10: incomplete sets are never empty in reachable states -/

/-- The safety condition of C10 on one set: an Incomplete set holds at
least one fragment, so the values().next().unwrap() read of generate_ack
has a value (firstValueFragTotal is some). -/
def setIncompleteOk (s : FragmentSet) : Bool :=
  match s.state with
  | .incomplete frags => ! frags.isEmpty && (firstValueFragTotal frags).isSome
  | .complete _ _ => true

/-- Combiner states reachable from new() through push, tick and
next_out_message. -/
inductive Reachable : FragmentCombiner → Prop
  | new : Reachable FragmentCombiner.new
  | push (c : FragmentCombiner) (f : Fragment) (n : Nat) :
      Reachable c → Reachable (c.push f n)
  | tick (c : FragmentCombiner) (n : Nat) (c2 : FragmentCombiner)
      (acks : List (Nat × List Nat)) :
      Reachable c → c.tick n = some (c2, acks) → Reachable c2
  | pop (c : FragmentCombiner) : Reachable c → Reachable c.next_out_message.2

theorem setIncompleteOk_of_ne_nil (s : FragmentSet) (frags : List (Nat × Fragment))
    (hstate : s.state = .incomplete frags) (hne : frags ≠ []) :
    setIncompleteOk s = true := by
  cases frags with
  | nil => exact absurd rfl hne
  | cons p rest => simp [setIncompleteOk, hstate, firstValueFragTotal]

theorem setIncompleteOk_of_complete (s : FragmentSet) (ci ft : Nat)
    (hstate : s.state = .complete ci ft) : setIncompleteOk s = true := by
  simp [setIncompleteOk, hstate]

theorem tickAux_mem (n : Nat) :
    ∀ (l sets : List (Nat × FragmentSet)) (acks : List (Nat × List Nat))
      (q : Nat × FragmentSet),
      tickAux n l = some (sets, acks) → q ∈ sets →
      ∃ p ∈ l, q = p ∨ q = (p.1, p.2.send_ack n) := by
  intro l
  induction l with
  | nil =>
      intro sets acks q h hq
      cases h
      cases hq
  | cons p rest ih =>
      obtain ⟨sid, s⟩ := p
      intro sets acks q h hq
      simp only [tickAux] at h
      by_cases hstale : s.is_stale n = true
      · rw [if_pos hstale] at h
        obtain ⟨p2, hp2, hc⟩ := ih sets acks q h hq
        exact ⟨p2, List.mem_cons_of_mem _ hp2, hc⟩
      · rw [if_neg hstale] at h
        by_cases hb : (s.should_send_ack &&
            (match s.last_sent_ack_iteration with
              | some last_iter => decide (n - last_iter ≥ ACK_SEND_INTERVAL)
              | none => true)) = true
        · rw [if_pos hb] at h
          cases hga : s.generate_ack with
          | none =>
              rw [hga] at h
              cases h
          | some a =>
              rw [hga] at h
              cases hrec : tickAux n rest with
              | none =>
                  rw [hrec] at h
                  cases h
              | some pr =>
                  obtain ⟨sets0, acks0⟩ := pr
                  rw [hrec] at h
                  rw [Option.some.injEq, Prod.mk.injEq] at h
                  obtain ⟨hsets, hacks⟩ := h
                  rw [← hsets] at hq
                  rcases List.mem_cons.mp hq with hq | hq
                  · exact ⟨(sid, s), List.mem_cons_self _ _, Or.inr hq⟩
                  · obtain ⟨p2, hp2, hc⟩ := ih sets0 acks0 q hrec hq
                    exact ⟨p2, List.mem_cons_of_mem _ hp2, hc⟩
        · rw [if_neg hb] at h
          cases hrec : tickAux n rest with
          | none =>
              rw [hrec] at h
              cases h
          | some pr =>
              obtain ⟨sets0, acks0⟩ := pr
              rw [hrec] at h
              rw [Option.some.injEq, Prod.mk.injEq] at h
              obtain ⟨hsets, hacks⟩ := h
              rw [← hsets] at hq
              rcases List.mem_cons.mp hq with hq | hq
              · exact ⟨(sid, s), List.mem_cons_self _ _, Or.inl hq⟩
              · obtain ⟨p2, hp2, hc⟩ := ih sets0 acks0 q hrec hq
                exact ⟨p2, List.mem_cons_of_mem _ hp2, hc⟩

theorem invariant_push (c : FragmentCombiner) (f : Fragment) (n : Nat)
    (h : ∀ p ∈ c.pending_fragments, setIncompleteOk p.2 = true) :
    ∀ p ∈ (c.push f n).pending_fragments, setIncompleteOk p.2 = true := by
  have hmain : ∀ (frags : List (Nat × Fragment)) (set3 : FragmentSet),
      set3.state = .incomplete (alistInsert f.frag_id f frags) →
      ∀ p ∈ (alistInsert f.seq_id set3 c.pending_fragments),
        setIncompleteOk p.2 = true := by
    intro frags set3 hset3 p hp
    rcases mem_alistInsert _ _ _ _ hp with hp | hp
    · rw [hp]
      exact setIncompleteOk_of_ne_nil set3 _ hset3 (alistInsert_ne_nil _ _ _)
    · exact h p hp
  have htrans : ∀ (frags : List (Nat × Fragment)) (set3 : FragmentSet),
      set3.state = .incomplete (alistInsert f.frag_id f frags) →
      ∀ c3, FragmentCombiner.transform_message
          (FragmentCombiner.mk (alistInsert f.seq_id set3 c.pending_fragments)
            c.out_messages) f.seq_id n = some c3 →
      ∀ p ∈ c3.pending_fragments, setIncompleteOk p.2 = true := by
    intro frags set3 hset3 c3 htm p hp
    rw [transform_message_of_incomplete _ _ _ set3 _
      (alistLookup_insert_self _ _ _) hset3] at htm
    split at htm
    · split at htm
      · cases htm
      · rw [Option.some.injEq] at htm
        rw [← htm] at hp
        rcases mem_alistInsert _ _ _ _ hp with hp | hp
        · rw [hp]
          exact setIncompleteOk_of_complete _ _ _ rfl
        · exact hmain frags set3 hset3 p hp
    · cases htm
  cases hlook : alistLookup f.seq_id c.pending_fragments with
  | none =>
      rw [push_of_new c f n hlook]
      simp only []
      split
      · cases htm : FragmentCombiner.transform_message
            (FragmentCombiner.mk (alistInsert f.seq_id
              ({ seq_id := f.seq_id, state := .incomplete [(f.frag_id, f)], fragment_meta := f.frag_meta, last_sent_ack_iteration := none, last_received_iteration := n, acks_sent_count := 0 }) c.pending_fragments) c.out_messages) f.seq_id n with
        | some c3 =>
            exact htrans [] _ rfl c3 htm
        | none =>
            intro p hp
            exact hmain [] _ rfl p (mem_alistRemove _ _ _ hp)
      · exact hmain [] _ rfl
  | some s0 =>
      cases hstate : s0.state with
      | complete ci ft =>
          rw [push_of_complete c f n s0 ci ft hlook hstate]
          intro p hp
          rcases mem_alistInsert _ _ _ _ hp with hp | hp
          · rw [hp]
            exact setIncompleteOk_of_complete _ ci ft hstate
          · exact h p hp
      | incomplete frags =>
          rw [push_of_incomplete c f n s0 frags hlook hstate]
          simp only []
          split
          · cases htm : FragmentCombiner.transform_message
                (FragmentCombiner.mk (alistInsert f.seq_id
                  ({ s0 with state := .incomplete (alistInsert f.frag_id f frags), last_received_iteration := n, acks_sent_count := 0 }) c.pending_fragments) c.out_messages) f.seq_id n with
            | some c3 =>
                exact htrans frags _ rfl c3 htm
            | none =>
                intro p hp
                exact hmain frags _ rfl p (mem_alistRemove _ _ _ hp)
          · exact hmain frags _ rfl

/-- C10: in every FragmentCombiner state reachable from new() through
push, tick and next_out_message, every Incomplete FragmentSet holds at
least one fragment, so the values().next().unwrap() frag_total read of
generate_ack never panics on an empty map during tick. -/
theorem incomplete_sets_nonempty (c : FragmentCombiner) (h : Reachable c) :
    c.pending_fragments.all (fun p => setIncompleteOk p.2) = true := by
  induction h with
  | new => rfl
  | push c f n hr ih =>
      rw [List.all_eq_true] at ih ⊢
      intro p hp
      exact invariant_push c f n (fun q hq => ih q hq) p hp
  | tick c n c2 acks hr htick ih =>
      rw [List.all_eq_true] at ih ⊢
      intro q hq
      rw [FragmentCombiner.tick] at htick
      cases ht : tickAux n c.pending_fragments with
      | none =>
          rw [ht] at htick
          cases htick
      | some pr =>
          obtain ⟨sets, acks0⟩ := pr
          rw [ht] at htick
          rw [Option.some.injEq, Prod.mk.injEq] at htick
          obtain ⟨hc2, hacks⟩ := htick
          rw [← hc2] at hq
          obtain ⟨p, hp, hc⟩ := tickAux_mem n c.pending_fragments sets acks0 q ht hq
          rcases hc with hc | hc
          · rw [hc]
            exact ih p hp
          · rw [hc]
            have : setIncompleteOk (p.2.send_ack n) = setIncompleteOk p.2 := rfl
            rw [this]
            exact ih p hp
  | pop c hr ih =>
      have hpend : (c.next_out_message).2.pending_fragments = c.pending_fragments := by
        rw [FragmentCombiner.next_out_message]
        cases c.out_messages <;> rfl
      rw [hpend]
      exact ih

/-- Witness for the C10 theorem at the state after one push. -/
theorem incomplete_sets_nonempty_witness :
    ((FragmentCombiner.new.push ⟨1, 0, 1, .key, [5]⟩ 0).pending_fragments.all
      (fun p => setIncompleteOk p.2)) = true :=
  incomplete_sets_nonempty _ (Reachable.push _ _ _ Reachable.new)

/-! ## Sent-data tracker (sent_data_tracker.rs, the Instant-based revision
in the snapshot). Instant and Duration values are Nat nanoseconds; the
Duration arithmetic resend_delay * k / 5 truncates at nanosecond
resolution exactly as Nat division does. -/

/-- SEQ_DATA_CLEANUP_DELAY from consts.rs: 5000 ms, in nanoseconds. -/
def SEQ_DATA_CLEANUP_DELAY : Nat := 5000000000

/-- PacketExpiration from sent_data_tracker.rs. -/
inductive PacketExpiration
  | key
  | expirableKey (expiration : Nat)
  deriving DecidableEq, Repr

/-- The From(Option PacketExpiration) for FragmentMeta impl. -/
def fragmentMetaOfExpiration : Option PacketExpiration → FragmentMeta
  | none => .forgettable
  | some .key => .key
  | some (.expirableKey _) => .keyExpirable

/-- MessagePriority from rudp.rs. -/
inductive MessagePriority
  | lowest
  | veryLow
  | low
  | normal
  | high
  | veryHigh
  | highest
  | custom (resend_delay : Nat)
  deriving DecidableEq, Repr

/-- MessagePriority::resend_delay, in nanoseconds (20 ms to 1500 ms). -/
def MessagePriority.resend_delay : MessagePriority → Nat
  | .highest => 20000000
  | .veryHigh => 40000000
  | .high => 80000000
  | .normal => 160000000
  | .low => 320000000
  | .veryLow => 640000000
  | .lowest => 1500000000
  | .custom d => d

/-- SentDataSet from sent_data_tracker.rs. -/
structure SentDataSet where
  data : List Nat
  frag_total : Nat
  expiration_type : PacketExpiration
  last_received_ack : Option (Nat × List Nat)
  last_sent_packet : Nat
  complete_since : Option Nat
  unanswered_ack : Option (Nat × Nat)
  message_priority : MessagePriority
  deriving DecidableEq, Repr

/-- SentDataSet::is_expired: only ExpirableKey sets expire, strictly after
their deadline. -/
def SentDataSet.is_expired (s : SentDataSet) (now : Nat) : Bool :=
  match s.expiration_type with
  | .expirableKey expiration => decide (now > expiration)
  | _ => false

/-- SentDataSet::resend_packets: rebuild the fragments from the stored
data; send those whose bit is missing in the last received ack, or every
fragment when no ack was ever received; then clear unanswered_ack and
set last_sent_packet. The returned Option Nat is the receive instant of
the stored ack when it marked every fragment received. The outer none is
the expect panic when the stored data can no longer be fragmented. -/
def SentDataSet.resend_packets (s : SentDataSet) (seq_id now : Nat) :
    Option (List Fragment × Option Nat × SentDataSet) :=
  match build_fragments_from_bytes s.data seq_id
      (fragmentMetaOfExpiration (some s.expiration_type)) with
  | none => none
  | some (fragments, frag_total) =>
      match s.last_received_ack with
      | some (ack_received_instant, ack) =>
          some ((frag_ids_missing_from_ack ack frag_total).map
              (fun frag_id => fragments.getD frag_id ⟨0, 0, 0, .key, []⟩),
            if (frag_ids_missing_from_ack ack frag_total).isEmpty
              then some ack_received_instant else none,
            { s with unanswered_ack := none, last_sent_packet := now })
      | none =>
          some (fragments, none,
            { s with unanswered_ack := none, last_sent_packet := now })

/-- SentDataSet::attempt_resend_packets: resend when the last send is at
least resend_delay old, or when an unanswered ack exists whose oldest
timestamp is at least 4/5 of resend_delay old or whose newest is at least
3/5 of resend_delay old. -/
def SentDataSet.attempt_resend_packets (s : SentDataSet) (seq_id now : Nat) :
    Option (List Fragment × Option Nat × SentDataSet) :=
  if now ≥ s.last_sent_packet + s.message_priority.resend_delay then
    s.resend_packets seq_id now
  else
    match s.unanswered_ack with
    | some (told, tnew) =>
        if now ≥ told + s.message_priority.resend_delay * 4 / 5 ∨
            now - tnew ≥ s.message_priority.resend_delay * 3 / 5 then
          s.resend_packets seq_id now
        else some ([], none, s)
    | none => some ([], none, s)

/-- The per-set body of SentDataTracker::next_tick: an expired set is
removed; a set with complete_since set is removed SEQ_DATA_CLEANUP_DELAY
after that time and left alone otherwise; any other set attempts a
resend, recording complete_since when a complete ack was observed. -/
def nextTickSet (s : SentDataSet) (seq_id now : Nat) :
    Option (Option SentDataSet × List Fragment) :=
  if s.is_expired now then some (none, [])
  else
    match s.complete_since with
    | some complete_time =>
        if now - complete_time ≥ SEQ_DATA_CLEANUP_DELAY then some (none, [])
        else some (some s, [])
    | none =>
        match s.attempt_resend_packets seq_id now with
        | none => none
        | some (sent, ack_received, s2) =>
            match ack_received with
            | some t => some (some { s2 with complete_since := some t }, sent)
            | none => some (some s2, sent)

/-- SentDataTracker::next_tick over all sets. -/
def nextTickAux (now : Nat) :
    List (Nat × SentDataSet) → Option (List (Nat × SentDataSet) × List Fragment)
  | [] => some ([], [])
  | (sid, s) :: rest =>
      match nextTickSet s sid now with
      | none => none
      | some (os, sent) =>
          match nextTickAux now rest with
          | none => none
          | some (keep, sent2) =>
              some ((match os with
                | some s2 => [(sid, s2)]
                | none => []) ++ keep, sent ++ sent2)

/-- SentDataTracker from sent_data_tracker.rs; the sets map is an
association list. -/
structure SentDataTracker where
  sets : List (Nat × SentDataSet)
  deriving DecidableEq, Repr

/-- SentDataTracker::next_tick. -/
def SentDataTracker.next_tick (tr : SentDataTracker) (now : Nat) :
    Option (SentDataTracker × List Fragment) :=
  match nextTickAux now tr.sets with
  | none => none
  | some (keep, sent) => some (SentDataTracker.mk keep, sent)

/-- SentDataTracker::receive_ack: store the ack and its instant; keep the
oldest unanswered timestamp and advance the newest. A missing seq id is
silently dropped. -/
def SentDataTracker.receive_ack (tr : SentDataTracker) (seq_id : Nat)
    (data : List Nat) (now : Nat) : SentDataTracker :=
  match alistLookup seq_id tr.sets with
  | none => tr
  | some s =>
      let s2 := { s with last_received_ack := some (now, data), unanswered_ack := (match s.unanswered_ack with | some (told, _) => some (told, now) | none => some (now, now)) }
      SentDataTracker.mk (alistInsert seq_id s2 tr.sets)

/-! ## Claim C6: resend policy of the sent-data tracker tick -/

theorem fragmentGenAux_getD (seq ft : Nat) (fm : FragmentMeta) :
    ∀ (k : Nat) (cs : List (List Nat)) (i : Nat) (d : Fragment), i < cs.length →
      (fragmentGenAux seq ft fm k cs).getD i d = ⟨seq, k + i, ft, fm, cs.getD i []⟩ := by
  intro k cs
  induction cs generalizing k with
  | nil =>
      intro i d hi
      exact absurd hi (by simp)
  | cons c rest ih =>
      intro i d hi
      cases i with
      | zero => simp [fragmentGenAux]
      | succ j =>
          show (fragmentGenAux seq ft fm (k + 1) rest).getD j d = _
          rw [ih (k + 1) j d (by simp at hi; omega)]
          have hk : k + 1 + j = k + (j + 1) := by omega
          rw [hk]
          rfl

theorem mem_fragmentGenAux (seq ft : Nat) (fm : FragmentMeta) :
    ∀ (k : Nat) (cs : List (List Nat)) (fr : Fragment),
      fr ∈ fragmentGenAux seq ft fm k cs ↔
        ∃ i, i < cs.length ∧ fr = ⟨seq, k + i, ft, fm, cs.getD i []⟩ := by
  intro k cs
  induction cs generalizing k with
  | nil =>
      intro fr
      simp [fragmentGenAux]
  | cons c rest ih =>
      intro fr
      rw [show fragmentGenAux seq ft fm k (c :: rest)
        = ⟨seq, k, ft, fm, c⟩ :: fragmentGenAux seq ft fm (k + 1) rest from rfl]
      rw [List.mem_cons, ih (k + 1)]
      constructor
      · rintro (h | ⟨i, hi, hfr⟩)
        · refine ⟨0, by simp, ?_⟩
          rw [h]
          rfl
        · refine ⟨i + 1, by simp; omega, ?_⟩
          rw [hfr]
          have hk : k + 1 + i = k + (i + 1) := by omega
          rw [hk]
          rfl
      · rintro ⟨i, hi, hfr⟩
        cases i with
        | zero =>
            left
            rw [hfr]
            rfl
        | succ j =>
            right
            refine ⟨j, by simp at hi; omega, ?_⟩
            rw [hfr]
            have hk : k + (j + 1) = k + 1 + j := by omega
            rw [hk]
            rfl

theorem resend_packets_of_lra_none (s : SentDataSet) (seq_id now : Nat)
    (frags : List Fragment) (ft : Nat)
    (hbuild : build_fragments_from_bytes s.data seq_id
      (fragmentMetaOfExpiration (some s.expiration_type)) = some (frags, ft))
    (hlra : s.last_received_ack = none) :
    s.resend_packets seq_id now = some (frags, none,
      { s with unanswered_ack := none, last_sent_packet := now }) := by
  simp only [SentDataSet.resend_packets, hbuild, hlra]

theorem resend_packets_of_lra_some (s : SentDataSet) (seq_id now : Nat)
    (frags : List Fragment) (ft t0 : Nat) (ack0 : List Nat)
    (hbuild : build_fragments_from_bytes s.data seq_id
      (fragmentMetaOfExpiration (some s.expiration_type)) = some (frags, ft))
    (hlra : s.last_received_ack = some (t0, ack0)) :
    s.resend_packets seq_id now = some
      ((frag_ids_missing_from_ack ack0 ft).map
        (fun frag_id => frags.getD frag_id ⟨0, 0, 0, .key, []⟩),
      if (frag_ids_missing_from_ack ack0 ft).isEmpty then some t0 else none,
      { s with unanswered_ack := none, last_sent_packet := now }) := by
  simp only [SentDataSet.resend_packets, hbuild, hlra]

/-- C6: on a sent-data tracker tick, an unexpired set that has not yet
observed a complete ack resends exactly when now is at least
last_sent_packet + d, or when an unanswered ack exists whose oldest
timestamp is at least 4d/5 old or whose newest is at least 3d/5 old
(d the priority's resend delay); a resend transmits exactly the fragments
whose bit is missing in the stored ack bitmap (every fragment when no ack
was ever received), then sets last_sent_packet to now and clears
unanswered_ack, and when the stored bitmap marks every fragment received,
complete_since is set to that ack's receive instant. -/
theorem resend_policy (s : SentDataSet) (seq_id now : Nat)
    (hexp : s.is_expired now = false)
    (hcs : s.complete_since = none)
    (h1 : 1 ≤ s.data.length)
    (h2 : s.data.length ≤ 256 * 1152) :
    (¬ (now ≥ s.last_sent_packet + s.message_priority.resend_delay ∨
        ∃ told tnew, s.unanswered_ack = some (told, tnew) ∧
          (now ≥ told + s.message_priority.resend_delay * 4 / 5 ∨
            now - tnew ≥ s.message_priority.resend_delay * 3 / 5)) →
      nextTickSet s seq_id now = some (some s, [])) ∧
    ((now ≥ s.last_sent_packet + s.message_priority.resend_delay ∨
        ∃ told tnew, s.unanswered_ack = some (told, tnew) ∧
          (now ≥ told + s.message_priority.resend_delay * 4 / 5 ∨
            now - tnew ≥ s.message_priority.resend_delay * 3 / 5)) →
      ∃ frags ft s2 sent,
        build_fragments_from_bytes s.data seq_id
            (fragmentMetaOfExpiration (some s.expiration_type)) = some (frags, ft) ∧
        nextTickSet s seq_id now = some (some s2, sent) ∧
        s2.last_sent_packet = now ∧
        s2.unanswered_ack = none ∧
        (s.last_received_ack = none → sent = frags ∧ s2.complete_since = none) ∧
        (∀ t ack, s.last_received_ack = some (t, ack) →
          (∀ fr, fr ∈ sent ↔
            (fr ∈ frags ∧ fr.frag_id ∈ frag_ids_missing_from_ack ack ft)) ∧
          (frag_ids_missing_from_ack ack ft = [] → s2.complete_since = some t) ∧
          (¬ frag_ids_missing_from_ack ack ft = [] → s2.complete_since = none))) := by
  have hbuild := build_fragments_eq s.data seq_id
    (fragmentMetaOfExpiration (some s.expiration_type)) h1 h2
  have hflen : (fragmentGenAux seq_id ((s.data.length + 1151) / 1152 - 1)
      (fragmentMetaOfExpiration (some s.expiration_type)) 0
      (chunks 1152 s.data)).length = (s.data.length + 1151) / 1152 := by
    rw [fragmentGenAux_length, chunks_length_eq]
  have hcount1 : 1 ≤ (s.data.length + 1151) / 1152 := by omega
  constructor
  · intro hnc
    rw [nextTickSet, hexp]
    simp only [Bool.false_eq_true, if_false]
    rw [hcs]
    have hatt : s.attempt_resend_packets seq_id now = some ([], none, s) := by
      rw [SentDataSet.attempt_resend_packets]
      rw [if_neg (fun hA => hnc (Or.inl hA))]
      cases hu : s.unanswered_ack with
      | none => rfl
      | some p =>
          obtain ⟨told, tnew⟩ := p
          show (if now ≥ told + s.message_priority.resend_delay * 4 / 5 ∨
              now - tnew ≥ s.message_priority.resend_delay * 3 / 5 then
            s.resend_packets seq_id now else some ([], none, s)) = some ([], none, s)
          rw [if_neg (fun hD => hnc (Or.inr ⟨told, tnew, hu, hD⟩))]
    rw [hatt]
  · intro hc
    have hatt : s.attempt_resend_packets seq_id now = s.resend_packets seq_id now := by
      rw [SentDataSet.attempt_resend_packets]
      by_cases hA : now ≥ s.last_sent_packet + s.message_priority.resend_delay
      · rw [if_pos hA]
      · rw [if_neg hA]
        rcases hc with hc | ⟨told, tnew, hu, hD⟩
        · exact absurd hc hA
        · rw [hu]
          show (if now ≥ told + s.message_priority.resend_delay * 4 / 5 ∨
              now - tnew ≥ s.message_priority.resend_delay * 3 / 5 then
            s.resend_packets seq_id now else some ([], none, s))
            = s.resend_packets seq_id now
          rw [if_pos hD]
    rw [nextTickSet, hexp]
    simp only [Bool.false_eq_true, if_false]
    rw [hcs, hatt]
    cases hlra : s.last_received_ack with
    | none =>
        rw [resend_packets_of_lra_none s seq_id now _ _ hbuild hlra]
        refine ⟨_, _, _, _, hbuild, rfl, rfl, rfl, ?_, ?_⟩
        · intro _
          exact ⟨rfl, hcs⟩
        · intro t ack hsome
          simp at hsome
    | some p =>
        obtain ⟨t0, ack0⟩ := p
        rw [resend_packets_of_lra_some s seq_id now _ _ t0 ack0 hbuild hlra]
        by_cases hmiss : frag_ids_missing_from_ack ack0
            ((s.data.length + 1151) / 1152 - 1) = []
        · rw [hmiss]
          refine ⟨_, _, _, _, hbuild, rfl, rfl, rfl, ?_, ?_⟩
          · intro hnone
            simp at hnone
          · intro t ack hsome
            rw [Option.some.injEq, Prod.mk.injEq] at hsome
            obtain ⟨ht, hack⟩ := hsome
            subst ht
            subst hack
            refine ⟨?_, fun _ => rfl, fun hne2 => absurd hmiss hne2⟩
            intro fr
            simp [hmiss]
        · have hne : (frag_ids_missing_from_ack ack0
              ((s.data.length + 1151) / 1152 - 1)).isEmpty = false := by
            cases hm : frag_ids_missing_from_ack ack0
                ((s.data.length + 1151) / 1152 - 1) with
            | nil => exact absurd hm hmiss
            | cons a rest => rfl
          rw [hne]
          refine ⟨_, _, _, _, hbuild, rfl, rfl, rfl, ?_, ?_⟩
          · intro hnone
            simp at hnone
          · intro t ack hsome
            rw [Option.some.injEq, Prod.mk.injEq] at hsome
            obtain ⟨ht, hack⟩ := hsome
            subst ht
            subst hack
            refine ⟨?_, fun hemp => absurd hemp hmiss, fun _ => hcs⟩
            intro fr
            rw [List.mem_map]
            constructor
            · rintro ⟨i, hi, hfr⟩
              have hity := (mem_missing_iff _ _ _).mp hi
              have hilt : i < (chunks 1152 s.data).length := by
                rw [chunks_length_eq]
                omega
              rw [fragmentGenAux_getD _ _ _ 0 _ i _ hilt] at hfr
              constructor
              · rw [← hfr]
                rw [mem_fragmentGenAux]
                exact ⟨i, hilt, rfl⟩
              · rw [← hfr]
                show 0 + i ∈ _
                rw [Nat.zero_add]
                exact hi
            · rintro ⟨hmem, hid⟩
              rw [mem_fragmentGenAux] at hmem
              obtain ⟨i, hilt, hfr⟩ := hmem
              have hid2 : fr.frag_id = i := by
                rw [hfr]
                show 0 + i = i
                rw [Nat.zero_add]
              refine ⟨i, ?_, ?_⟩
              · rw [← hid2]
                exact hid
              · rw [fragmentGenAux_getD _ _ _ 0 _ i _ hilt]
                exact hfr.symm

/-- Witness for C6: a key-expiration set holding 3 bytes, never acked, with
resend due because a full resend delay has elapsed since the last send. -/
theorem resend_policy_witness :
    ∃ frags ft s2 sent,
      build_fragments_from_bytes [1, 2, 3] 7
          (fragmentMetaOfExpiration (some PacketExpiration.key)) = some (frags, ft) ∧
      nextTickSet ⟨[1, 2, 3], 0, PacketExpiration.key, none, 0, none, none,
          MessagePriority.normal⟩ 7 160000000 = some (some s2, sent) ∧
      s2.last_sent_packet = 160000000 ∧
      s2.unanswered_ack = none ∧
      ((none : Option (Nat × List Nat)) = none → sent = frags ∧ s2.complete_since = none) ∧
      (∀ t ack, (none : Option (Nat × List Nat)) = some (t, ack) →
        (∀ fr, fr ∈ sent ↔
          (fr ∈ frags ∧ fr.frag_id ∈ frag_ids_missing_from_ack ack ft)) ∧
        (frag_ids_missing_from_ack ack ft = [] → s2.complete_since = some t) ∧
        (¬ frag_ids_missing_from_ack ack ft = [] → s2.complete_since = none)) :=
  (resend_policy ⟨[1, 2, 3], 0, PacketExpiration.key, none, 0, none, none,
    MessagePriority.normal⟩ 7 160000000 (by decide) rfl (by decide) (by decide)).2
    (Or.inl (by decide))

/-! ## Claim C4: terminate on a connected socket (rudp.rs) -/

/-- SocketEvent from rudp.rs. -/
inductive SocketEvent
  | data (d : List Nat)
  | connected
  | aborted
  | ended
  | timeout
  deriving DecidableEq, Repr

/-- SocketStatus from rudp.rs; Instants are Nat nanoseconds. -/
inductive SocketStatus
  | synSent (t : Nat)
  | synReceived
  | timeoutError (t : Nat)
  | connected
  | terminateSent (t : Nat)
  | terminateReceived (t : Nat)
  deriving DecidableEq, Repr

/-- SocketStatus::event: the event queued when the status is set. -/
def SocketStatus.event : SocketStatus → Option SocketEvent
  | .timeoutError _ => some .timeout
  | .terminateSent _ => some .ended
  | .terminateReceived _ => none
  | .connected => some .connected
  | _ => none

/-- SocketStatus::is_finished. -/
def SocketStatus.is_finished : SocketStatus → Bool
  | .timeoutError _ => true
  | .terminateSent _ => true
  | .terminateReceived _ => true
  | _ => false

/-- The send/status/event state of an RUdpSocket; sent_packets records the
datagrams handed to the wire in order. -/
structure RUdpSocket where
  status : SocketStatus
  events : List SocketEvent
  sent_packets : List Packet
  next_local_seq_id : Nat
  deriving DecidableEq, Repr

/-- UdpSocketWrapper::send_udp_packet: a finished connection sends
nothing. -/
def RUdpSocket.send_udp_packet (s : RUdpSocket) (p : Packet) : RUdpSocket :=
  if s.status.is_finished then s
  else { s with sent_packets := s.sent_packets ++ [p] }

/-- RUdpSocket::set_status: record the status and queue its event. -/
def RUdpSocket.set_status (s : RUdpSocket) (st : SocketStatus) : RUdpSocket :=
  { s with
      status := st
      events := s.events ++ (match st.event with | some e => [e] | none => []) }

/-- RUdpSocket::send_end: an End packet carrying next_local_seq_id
saturating-minus one; the status is not changed. -/
def RUdpSocket.send_end (s : RUdpSocket) : RUdpSocket :=
  s.send_udp_packet (.endP (s.next_local_seq_id - 1))

/-- RUdpSocket::send_abort. -/
def RUdpSocket.send_abort (s : RUdpSocket) : RUdpSocket :=
  s.send_udp_packet (.abort (s.next_local_seq_id - 1))

/-- impl Drop for RUdpSocket: a socket dropped while Connected, SynSent or
SynReceived sends an Abort. -/
def RUdpSocket.drop (s : RUdpSocket) : RUdpSocket :=
  match s.status with
  | .connected => s.send_abort
  | .synSent _ => s.send_abort
  | .synReceived => s.send_abort
  | _ => s

/-- RUdpSocket::terminate: it only calls send_end, and because it consumes
the socket the Drop impl then runs on the unchanged status. -/
def RUdpSocket.terminate (s : RUdpSocket) : RUdpSocket :=
  s.send_end.drop

/-- C4: terminate on a Connected socket sends an End packet and then an
Abort packet (the Drop impl fires because the status is still Connected);
the status is never set to TerminateSent and no Ended event is queued.
The last conjuncts show the Ended event would only arise from a
set_status to TerminateSent, which terminate never performs. -/
theorem terminate_behaviour :
    (RUdpSocket.terminate ⟨.connected, [], [], 5⟩).sent_packets
        = [.endP 4, .abort 4] ∧
    (RUdpSocket.terminate ⟨.connected, [], [], 5⟩).status = .connected ∧
    (RUdpSocket.terminate ⟨.connected, [], [], 5⟩).events = [] ∧
    SocketStatus.event (.terminateSent 0) = some .ended ∧
    (RUdpSocket.set_status ⟨.connected, [], [], 5⟩ (.terminateSent 7)).events
        = [SocketEvent.ended] := by
  decide

end Reliudp
